import Mathlib

/-!
Verification development for the business-card OCR pipeline
(`src/ocr.py`, `src/parser.py`, `src/pipeline.py`, `src/enrichment.py`).

The Python modules are shallowly embedded: strings become `List Char`
(ASCII semantics), floats become `ℚ`, `re` patterns become either a small
backtracking matcher (`RE`/`reMatches`, faithful to CPython leftmost-greedy
semantics for the pattern shapes used by the source) or direct scanners for
the handful of patterns whose group logic is simpler written out.
-/

set_option maxRecDepth 100000
set_option maxHeartbeats 4000000

namespace Card

/-! ### Character classes (ASCII semantics of Python `str` methods / `re` classes) -/

def isDigitC (c : Char) : Bool := c.isDigit

def isAlphaC (c : Char) : Bool := c.isAlpha

def isAlnumC (c : Char) : Bool := c.isAlpha || c.isDigit

def isWordC (c : Char) : Bool := c.isAlpha || c.isDigit || c = '_'

def isSpaceC (c : Char) : Bool :=
  c = ' ' || c = '\t' || c = '\n' || c = '\x0d' || c = '\x0b' || c = '\x0c'

def isUpperC (c : Char) : Bool := 'A' ≤ c && c ≤ 'Z'

def isLowerC (c : Char) : Bool := 'a' ≤ c && c ≤ 'z'

def lowerC (c : Char) : Char := if isUpperC c then Char.ofNat (c.toNat + 32) else c

def upperC (c : Char) : Char := if isLowerC c then Char.ofNat (c.toNat - 32) else c

/-- The apostrophe character (Python `"'"`). -/
def apos : Char := Char.ofNat 39

/-! ### Python string helpers on `List Char` -/

def lowerL (l : List Char) : List Char := l.map lowerC

/-- Python `s.strip()` (ASCII whitespace). -/
def pyStrip (l : List Char) : List Char :=
  ((l.dropWhile isSpaceC).reverse.dropWhile isSpaceC).reverse

theorem dropWhile_length_le (p : Char → Bool) :
    ∀ l : List Char, (l.dropWhile p).length ≤ l.length := by
  intro l
  induction l with
  | nil => simp
  | cons c cs ih =>
    by_cases h : p c
    · simp [List.dropWhile_cons, h]; omega
    · simp [List.dropWhile_cons, h]

/-- Python `s.split()`: split on whitespace runs, dropping empty pieces.
The fuel only bounds the scan; `length + 1` always suffices since every
step consumes at least one character. -/
def pyWordsAux : Nat → List Char → List (List Char)
  | 0, _ => []
  | _, [] => []
  | fuel + 1, c :: cs =>
    if isSpaceC c then pyWordsAux fuel cs
    else
      ((c :: cs).takeWhile fun x => !isSpaceC x) ::
        pyWordsAux fuel ((c :: cs).dropWhile fun x => !isSpaceC x)

def pyWords (l : List Char) : List (List Char) := pyWordsAux (l.length + 1) l

/-- Python `sep.join(words)` for a one-char separator. -/
def joinSep (sep : Char) : List (List Char) → List Char
  | [] => []
  | [w] => w
  | w :: ws => w ++ sep :: joinSep sep ws

/-- Python `" ".join(s.split())` — whitespace collapse. -/
def wsCollapse (l : List Char) : List Char := joinSep ' ' (pyWords l)

/-- Python `s.split(ch)` (always at least one piece). -/
def splitOnC (ch : Char) : List Char → List (List Char)
  | [] => [[]]
  | c :: cs =>
    let r := splitOnC ch cs
    if c = ch then [] :: r
    else
      match r with
      | [] => [[c]]
      | p :: ps => (c :: p) :: ps

/-- Does `l` start with `p` (case-insensitively)? -/
def startsWithCI : List Char → List Char → Bool
  | [], _ => true
  | _ :: _, [] => false
  | p :: ps, c :: cs => (lowerC c = lowerC p : Bool) && startsWithCI ps cs

/-- Does `l` start with `p` (case-sensitively)? -/
def startsWithCS : List Char → List Char → Bool
  | [], _ => true
  | _ :: _, [] => false
  | p :: ps, c :: cs => (c = p : Bool) && startsWithCS ps cs

/-- Python `p in l` (substring, case-sensitive). -/
def containsSub : List Char → List Char → Bool
  | _, [] => true
  | [], _ => false
  | c :: cs, p => startsWithCS p (c :: cs) || containsSub cs p

/-- Case-insensitive substring test. -/
def containsSubCI (l p : List Char) : Bool := containsSub (lowerL l) (lowerL p)

/-- Python `str.title()`: first cased char of each alphabetic run upper,
rest lower. -/
def pyTitleAux : Nat → List Char → List Char
  | 0, l => l
  | _, [] => []
  | fuel + 1, c :: cs =>
    if isAlphaC c then
      (upperC c :: (cs.takeWhile isAlphaC).map lowerC) ++
        pyTitleAux fuel (cs.dropWhile isAlphaC)
    else c :: pyTitleAux fuel cs

def pyTitle (l : List Char) : List Char := pyTitleAux (l.length + 1) l

/-- Python `s.isupper()`: some cased char, and no lowercase char. -/
def pyIsUpper (l : List Char) : Bool :=
  l.any (fun c => isUpperC c || isLowerC c) && !l.any isLowerC

/-- Python `s.isalpha()`: nonempty and all alphabetic. -/
def pyIsAlpha (l : List Char) : Bool := !l.isEmpty && l.all isAlphaC

def countDigits (l : List Char) : Nat := (l.filter isDigitC).length

/-! ### A small backtracking regex matcher

Alternatives are tried left-first and repetitions longest-first, which is
exactly CPython's backtracking order; `reMatches` lists every
(consumed, rest) split in priority order, so its head is the match `re`
would produce at that position.  Unbounded repetition only ever occurs over
a single character class in the source's patterns, hence `star` carries a
class rather than a sub-expression. `bnd` is the `\b` assertion; the
character immediately left of the current position is threaded through. -/

inductive RE where
  | cls (p : Char → Bool)
  | eps
  | cat (a b : RE)
  | alt (a b : RE)
  | star (p : Char → Bool)
  | bnd

def isWordOpt : Option Char → Bool
  | none => false
  | some c => isWordC c

def lastChar (prev : Option Char) (c : List Char) : Option Char :=
  match c.getLast? with
  | some x => some x
  | none => prev

def reMatches : RE → Option Char → List Char → List (List Char × List Char)
  | .cls _, _, [] => []
  | .cls p, _, c :: cs => if p c then [([c], cs)] else []
  | .eps, _, l => [([], l)]
  | .cat a b, prev, l =>
    (reMatches a prev l).bind fun m1 =>
      (reMatches b (lastChar prev m1.1) m1.2).map fun m2 => (m1.1 ++ m2.1, m2.2)
  | .alt a b, prev, l => reMatches a prev l ++ reMatches b prev l
  | .star p, _, l =>
    let run := l.takeWhile p
    (List.range (run.length + 1)).reverse.map fun k => (run.take k, l.drop k)
  | .bnd, prev, l =>
    if isWordOpt prev ≠ isWordOpt l.head? then [([], l)] else []

/-- Greedy: the first listed split is the one CPython returns. -/
def firstMatch (r : RE) (prev : Option Char) (l : List Char) :
    Option (List Char × List Char) :=
  (reMatches r prev l).head?

/-- `re.search` from a given position: returns (skipped, matched, rest). -/
def searchFrom (r : RE) : Nat → Option Char → List Char →
    Option (List Char × List Char × List Char)
  | 0, _, _ => none
  | fuel + 1, prev, l =>
    match firstMatch r prev l with
    | some (m, rest) => some ([], m, rest)
    | none =>
      match l with
      | [] => none
      | c :: cs =>
        (searchFrom r fuel (some c) cs).map fun x => (c :: x.1, x.2.1, x.2.2)

def reSearch (r : RE) (l : List Char) : Option (List Char × List Char × List Char) :=
  searchFrom r (l.length + 1) none l

/-- All non-overlapping matches, left to right (`re.finditer`).  The source's
patterns cannot match the empty string, but an empty match advances by one
character anyway so that the function is total on all inputs. -/
def findAllFrom (r : RE) : Nat → Option Char → List Char → List (List Char)
  | 0, _, _ => []
  | fuel + 1, prev, l =>
    match searchFrom r (l.length + 1) prev l with
    | none => []
    | some (skipped, m, rest) =>
      if m.isEmpty then
        match rest with
        | [] => []
        | c :: cs => findAllFrom r fuel (some c) cs
      else m :: findAllFrom r fuel (lastChar (lastChar prev skipped) m) rest

def findAll (r : RE) (l : List Char) : List (List Char) :=
  findAllFrom r (l.length + 1) none l

/-! #### Derived constructors -/

def reOpt (r : RE) : RE := .alt r .eps

def lit1 (c : Char) : RE := .cls (fun x => x = c)

def litCI (c : Char) : RE := .cls (fun x => lowerC x = lowerC c)

def strCS (s : String) : RE := s.data.foldr (fun c r => .cat (lit1 c) r) .eps

def strCI (s : String) : RE := s.data.foldr (fun c r => .cat (litCI c) r) .eps

/-- `p+` for a character class. -/
def plusC (p : Char → Bool) : RE := .cat (.cls p) (.star p)

/-- `p{2,}` for a character class. -/
def rep2plus (p : Char → Bool) : RE := .cat (.cls p) (.cat (.cls p) (.star p))

/-- `p{0,k}` for a character class (greedy). -/
def repOpt (p : Char → Bool) : Nat → RE
  | 0 => .eps
  | k + 1 => reOpt (.cat (.cls p) (repOpt p k))

/-- `p{m}` for a character class. -/
def repExact (p : Char → Bool) : Nat → RE
  | 0 => .eps
  | k + 1 => .cat (.cls p) (repExact p k)

/-- `p{m,n}` for a character class (greedy). -/
def repRange (p : Char → Bool) (m n : Nat) : RE :=
  .cat (repExact p m) (repOpt p (n - m))

/-- Ordered alternation of literal strings, case-insensitively. -/
def altStrsCI : List String → RE
  | [] => .cls (fun _ => false)
  | [s] => strCI s
  | s :: ss => .alt (strCI s) (altStrsCI ss)

/-! #### Engine lemmas -/

theorem reMatches_append : ∀ (r : RE) (prev : Option Char) (l c rest : List Char),
    (c, rest) ∈ reMatches r prev l → c ++ rest = l := by
  intro r
  induction r with
  | cls p =>
    intro prev l c rest h
    match l with
    | [] => simp [reMatches] at h
    | x :: xs =>
      simp only [reMatches] at h
      by_cases hp : p x
      · simp [hp] at h; simp [h.1, h.2]
      · simp [hp] at h
  | eps => intro prev l c rest h; simp [reMatches] at h; simp [h.1, h.2]
  | cat a b iha ihb =>
    intro prev l c rest h
    simp only [reMatches, List.mem_bind, List.mem_map] at h
    obtain ⟨⟨c1, r1⟩, h1, ⟨c2, r2⟩, h2, heq⟩ := h
    have e1 := iha prev l c1 r1 h1
    have e2 := ihb (lastChar prev c1) r1 c2 r2 h2
    cases heq
    rw [List.append_assoc, e2, e1]
  | alt a b iha ihb =>
    intro prev l c rest h
    simp only [reMatches, List.mem_append] at h
    rcases h with h | h
    · exact iha prev l c rest h
    · exact ihb prev l c rest h
  | star p =>
    intro prev l c rest h
    simp only [reMatches, List.mem_map, List.mem_reverse, List.mem_range] at h
    obtain ⟨k, hk, heq⟩ := h
    obtain ⟨e1, e2⟩ := Prod.mk.injEq .. ▸ heq
    subst e1; subst e2
    have hpre : l.takeWhile p ++ l.dropWhile p = l := l.takeWhile_append_dropWhile _
    have hk' : k ≤ (l.takeWhile p).length := Nat.lt_succ_iff.mp hk
    have htk : (l.takeWhile p).take k = l.take k := by
      conv_rhs => rw [← hpre]
      rw [List.take_append_of_le_length hk']
    rw [htk]
    exact l.take_append_drop k
  | bnd =>
    intro prev l c rest h
    simp only [reMatches] at h
    split at h
    · simp at h; simp [h.1, h.2]
    · simp at h

/-- Union of the matcher's character classes: every consumed char satisfies it. -/
def reChars (S : Char → Prop) : RE → Prop
  | .cls p => ∀ c, p c = true → S c
  | .eps => True
  | .cat a b => reChars S a ∧ reChars S b
  | .alt a b => reChars S a ∧ reChars S b
  | .star p => ∀ c, p c = true → S c
  | .bnd => True

theorem reMatches_chars {S : Char → Prop} :
    ∀ (r : RE), reChars S r →
    ∀ (prev : Option Char) (l c rest : List Char),
    (c, rest) ∈ reMatches r prev l → ∀ ch ∈ c, S ch := by
  intro r
  induction r with
  | cls p =>
    intro hS prev l c rest h ch hch
    match l with
    | [] => simp [reMatches] at h
    | x :: xs =>
      simp only [reMatches] at h
      by_cases hp : p x
      · simp [hp] at h
        rw [h.1] at hch
        simp at hch
        exact hch ▸ hS x hp
      · simp [hp] at h
  | eps =>
    intro _ prev l c rest h ch hch
    simp [reMatches] at h
    rw [h.1] at hch; simp at hch
  | cat a b iha ihb =>
    intro hS prev l c rest h ch hch
    simp only [reMatches, List.mem_bind, List.mem_map] at h
    obtain ⟨⟨c1, r1⟩, h1, ⟨c2, r2⟩, h2, heq⟩ := h
    cases heq
    rcases List.mem_append.mp hch with hm | hm
    · exact iha hS.1 prev l c1 r1 h1 ch hm
    · exact ihb hS.2 (lastChar prev c1) r1 c2 r2 h2 ch hm
  | alt a b iha ihb =>
    intro hS prev l c rest h ch hch
    simp only [reMatches, List.mem_append] at h
    rcases h with h | h
    · exact iha hS.1 prev l c rest h ch hch
    · exact ihb hS.2 prev l c rest h ch hch
  | star p =>
    intro hS prev l c rest h ch hch
    simp only [reMatches, List.mem_map, List.mem_reverse, List.mem_range] at h
    obtain ⟨k, _, heq⟩ := h
    obtain ⟨e1, _⟩ := Prod.mk.injEq .. ▸ heq
    subst e1
    have : ch ∈ l.takeWhile p := List.mem_of_mem_take hch
    exact hS ch (List.mem_takeWhile_imp this)
  | bnd =>
    intro _ prev l c rest h ch hch
    simp only [reMatches] at h
    split at h
    · simp at h; rw [h.1] at hch; simp at hch
    · simp at h

/-! ### `OCRExtractor._correct_ocr_text` (src/ocr.py)

Each `re.sub` of the source becomes a left-to-right scanner with the same
non-overlapping, leftmost, greedy semantics.  The fuel argument only bounds
the scan; `length + 1` always suffices since every step consumes at least
one character. -/

/-- `OCRExtractor.word_corrections`, in dict (insertion) order. -/
def word_corrections : List (String × String) := [
  ("Wi11iam", "William"), ("Wil1iam", "William"), ("W1lliam", "William"),
  ("Mo11y", "Molly"), ("Mol1y", "Molly"),
  ("Mi11er", "Miller"), ("Mil1er", "Miller"),
  ("A1ex", "Alex"), ("A1ice", "Alice"),
  ("Phi1ip", "Philip"), ("Phi11ip", "Phillip"),
  ("Bi11", "Bill"),
  ("Wi1son", "Wilson"), ("W1lson", "Wilson"),
  ("Michae1", "Michael"), ("Danie1", "Daniel"), ("Samue1", "Samuel"),
  ("Pau1", "Paul"), ("Char1es", "Charles"), ("Char1ie", "Charlie"),
  ("Ol1via", "Olivia"), ("O1ivia", "Olivia"), ("0livia", "Olivia"),
  ("El1a", "Ella"), ("E1la", "Ella"),
  ("Mi1es", "Miles"), ("Ga1e", "Gale"),
  ("Ke11y", "Kelly"), ("Kel1y", "Kelly"),
  ("Sa11y", "Sally"), ("Sal1y", "Sally"),
  ("Ho11y", "Holly"), ("Hol1y", "Holly"),
  ("Li1y", "Lily"), ("L1ly", "Lily"),
  ("Li11ian", "Lillian"), ("Lil1ian", "Lillian"),
  ("Ha11", "Hall"), ("Hal1", "Hall"),
  ("Rea1", "Real"), ("rea1", "real"), ("Rea1 Estate", "Real Estate"),
  ("Sa1es", "Sales"), ("sa1es", "sales"), ("Genera1", "General"),
  ("So1utions", "Solutions"), ("so1utions", "solutions"),
  ("Techno1ogy", "Technology"), ("techno1ogy", "technology"),
  ("Techno1ogies", "Technologies"),
  ("G1oba1", "Global"), ("g1oba1", "global"),
  ("Financia1", "Financial"), ("Digita1", "Digital"),
  ("Professiona1", "Professional"), ("Internationa1", "International"),
  ("Industria1", "Industrial"), ("Capita1", "Capital"),
  ("Lega1", "Legal"), ("Socia1", "Social"), ("Virtua1", "Virtual"),
  ("Centra1", "Central"), ("Roya1", "Royal"), ("Imperia1", "Imperial"),
  ("Universa1", "Universal"), ("Coasta1", "Coastal"),
  ("Regiona1", "Regional"), ("Nationa1", "National"),
  ("Federa1", "Federal"), ("Commercia1", "Commercial"),
  ("Residentia1", "Residential"), ("Municipa1", "Municipal"),
  ("Cora1", "Coral"), ("Crysta1", "Crystal"), ("Meta1", "Metal"),
  ("Tota1", "Total"), ("Fisca1", "Fiscal"), ("Corpora1", "Corporal"),
  ("1ive", "live"), ("1ife", "life"),
  ("on1ine", "online"), ("On1ine", "Online"),
  ("mobi1e", "mobile"), ("Mobi1e", "Mobile"),
  ("emai1", "email"), ("Emai1", "Email"),
  ("1obster", "lobster"), ("Lobster", "Lobster"),
  ("1ishing", "fishing"), ("fishing", "fishing"),
  ("B1ue", "Blue"), ("b1ue", "blue"),
  ("Purp1e", "Purple"), ("Yel1ow", "Yellow"),
  ("Go1d", "Gold"), ("Si1ver", "Silver"), ("P1atinum", "Platinum"),
  ("c0m", "com"), (".c0m", ".com"),
  ("cQm", "com"), (".cQm", ".com"),
  ("ccm", "com"), (".ccm", ".com"),
  ("1nc", "Inc"), ("1NC", "INC"),
  ("L1C", "LLC"), ("11C", "LLC"), ("1LC", "LLC"),
  ("Corp0ration", "Corporation"), ("Corporat1on", "Corporation"),
  ("F1orida", "Florida"), ("Ca1ifornia", "California"),
  ("I11inois", "Illinois"), ("Pennsy1vania", "Pennsylvania"),
  ("Caro1ina", "Carolina"),
  ("Manag3r", "Manager"), ("D1rector", "Director"),
  ("Eng1neer", "Engineer"), ("Deve1oper", "Developer"),
  ("Consu1tant", "Consultant"), ("Spec1alist", "Specialist"),
  ("Ana1yst", "Analyst"), ("Adm1n", "Admin")]

/-- `re.sub(re.escape(pat), repl, text, flags=re.IGNORECASE)` for a literal
pattern: replace every non-overlapping occurrence, scanning left to right. -/
def replaceAllCIAux (pat repl : List Char) : Nat → List Char → List Char
  | 0, l => l
  | _, [] => []
  | fuel + 1, c :: cs =>
    if !pat.isEmpty && startsWithCI pat (c :: cs) then
      repl ++ replaceAllCIAux pat repl fuel ((c :: cs).drop pat.length)
    else c :: replaceAllCIAux pat repl fuel cs

def replaceAllCI (pat repl l : List Char) : List Char :=
  replaceAllCIAux pat repl (l.length + 1) l

/-- The word-corrections loop (first phase of `_correct_ocr_text`). -/
def applyWordCorrections (l : List Char) : List Char :=
  word_corrections.foldl (fun t pr => replaceAllCI pr.1.data pr.2.data t) l

/-- `re.sub(r'([a-zA-Z])1([a-zA-Z])', r'\1l\2', text)` -/
def sub1mid : Nat → List Char → List Char
  | 0, l => l
  | _, [] => []
  | fuel + 1, a :: rest =>
    match rest with
    | '1' :: b :: rest2 =>
      if isAlphaC a && isAlphaC b then a :: 'l' :: b :: sub1mid fuel rest2
      else a :: sub1mid fuel rest
    | _ => a :: sub1mid fuel rest

/-- `re.sub(r'\b1([a-zA-Z]{2,})', r'l\1', text)` -/
def sub1start : Nat → Option Char → List Char → List Char
  | 0, _, l => l
  | _, _, [] => []
  | fuel + 1, prev, c :: cs =>
    if c = '1' && !isWordOpt prev then
      let run := cs.takeWhile isAlphaC
      if 2 ≤ run.length then
        ('l' :: run) ++ sub1start fuel (lastChar (some '1') run) (cs.drop run.length)
      else c :: sub1start fuel (some c) cs
    else c :: sub1start fuel (some c) cs

/-- `re.sub(r'([a-zA-Z]{2,})1\b', r'\1l', text)` -/
def sub1end : Nat → List Char → List Char
  | 0, l => l
  | _, [] => []
  | fuel + 1, c :: cs =>
    if isAlphaC c then
      let run := (c :: cs).takeWhile isAlphaC
      let rest := (c :: cs).drop run.length
      match rest with
      | '1' :: rest2 =>
        if 2 ≤ run.length && !isWordOpt rest2.head? then
          (run ++ ['l']) ++ sub1end fuel rest2
        else c :: sub1end fuel cs
      | _ => c :: sub1end fuel cs
    else c :: sub1end fuel cs

/-- `re.sub(r'([a-zA-Z])11([a-zA-Z])', r'\1ll\2', text)` -/
def sub11mid : Nat → List Char → List Char
  | 0, l => l
  | _, [] => []
  | fuel + 1, a :: rest =>
    match rest with
    | '1' :: '1' :: b :: rest2 =>
      if isAlphaC a && isAlphaC b then a :: 'l' :: 'l' :: b :: sub11mid fuel rest2
      else a :: sub11mid fuel rest
    | _ => a :: sub11mid fuel rest

/-- `re.sub(r'([a-zA-Z])11\b', r'\1ll', text)` -/
def sub11end : Nat → List Char → List Char
  | 0, l => l
  | _, [] => []
  | fuel + 1, a :: rest =>
    match rest with
    | '1' :: '1' :: rest2 =>
      if isAlphaC a && !isWordOpt rest2.head? then
        a :: 'l' :: 'l' :: sub11end fuel rest2
      else a :: sub11end fuel rest
    | _ => a :: sub11end fuel rest

/-- `re.sub(r'([a-zA-Z])0([a-zA-Z])', r'\1o\2', text)` -/
def sub0mid : Nat → List Char → List Char
  | 0, l => l
  | _, [] => []
  | fuel + 1, a :: rest =>
    match rest with
    | '0' :: b :: rest2 =>
      if isAlphaC a && isAlphaC b then a :: 'o' :: b :: sub0mid fuel rest2
      else a :: sub0mid fuel rest
    | _ => a :: sub0mid fuel rest

/-- `re.sub(r'@(\w+)\s*\.\s*com\b', r'@\1.com', text, flags=re.IGNORECASE)` -/
def emailFixA : Nat → List Char → List Char
  | 0, l => l
  | _, [] => []
  | fuel + 1, c :: cs =>
    if c = '@' then
      let w := cs.takeWhile isWordC
      let r1 := (cs.drop w.length).dropWhile isSpaceC
      match w.isEmpty, r1 with
      | false, '.' :: r2 =>
        let r3 := r2.dropWhile isSpaceC
        if startsWithCI "com".data r3 && !isWordOpt (r3.drop 3).head? then
          ('@' :: w ++ ".com".data) ++ emailFixA fuel (r3.drop 3)
        else c :: emailFixA fuel cs
      | _, _ => c :: emailFixA fuel cs
    else c :: emailFixA fuel cs

/-- `re.sub(r'@(\w+)\s+com\b', r'@\1.com', text, flags=re.IGNORECASE)` -/
def emailFixB : Nat → List Char → List Char
  | 0, l => l
  | _, [] => []
  | fuel + 1, c :: cs =>
    if c = '@' then
      let w := cs.takeWhile isWordC
      let sp := (cs.drop w.length).takeWhile isSpaceC
      let r1 := (cs.drop w.length).drop sp.length
      if !w.isEmpty && !sp.isEmpty && startsWithCI "com".data r1 &&
          !isWordOpt (r1.drop 3).head? then
        ('@' :: w ++ ".com".data) ++ emailFixB fuel (r1.drop 3)
      else c :: emailFixB fuel cs
    else c :: emailFixB fuel cs

/-- `[o0]` under `re.IGNORECASE`. -/
def isO0 (c : Char) : Bool := c = 'o' || c = 'O' || c = '0'

/-- `re.sub(r'(\w+)@(\w+)\.c[o0]m\b', r'\1@\2.com', text, flags=re.IGNORECASE)` -/
def emailFixC : Nat → List Char → List Char
  | 0, l => l
  | _, [] => []
  | fuel + 1, c :: cs =>
    if isWordC c then
      let w1 := (c :: cs).takeWhile isWordC
      match (c :: cs).drop w1.length with
      | '@' :: r1 =>
        let w2 := r1.takeWhile isWordC
        match w2.isEmpty, r1.drop w2.length with
        | false, '.' :: x :: y :: z :: r2 =>
          if lowerC x = 'c' && isO0 y && lowerC z = 'm' && !isWordOpt r2.head? then
            (w1 ++ '@' :: w2 ++ ".com".data) ++ emailFixC fuel r2
          else c :: emailFixC fuel cs
        | _, _ => c :: emailFixC fuel cs
      | _ => c :: emailFixC fuel cs
    else c :: emailFixC fuel cs

/-- `re.sub(r'www\s*\.\s*', 'www.', text, flags=re.IGNORECASE)` -/
def wwwFix : Nat → List Char → List Char
  | 0, l => l
  | _, [] => []
  | fuel + 1, c :: cs =>
    if startsWithCI "www".data (c :: cs) then
      let r1 := ((c :: cs).drop 3).dropWhile isSpaceC
      match r1 with
      | '.' :: r2 => "www.".data ++ wwwFix fuel (r2.dropWhile isSpaceC)
      | _ => c :: wwwFix fuel cs
    else c :: wwwFix fuel cs

/-- `re.sub(r'\.c[o0]m\b', '.com', text, flags=re.IGNORECASE)` -/
def domFix : Nat → List Char → List Char
  | 0, l => l
  | _, [] => []
  | fuel + 1, c :: cs =>
    match c, cs with
    | '.', x :: y :: z :: r =>
      if lowerC x = 'c' && isO0 y && lowerC z = 'm' && !isWordOpt r.head? then
        ".com".data ++ domFix fuel r
      else c :: domFix fuel cs
    | _, _ => c :: domFix fuel cs

/-- `OCRExtractor._correct_ocr_text`, on `List Char`. -/
def correct_ocr_list (l : List Char) : List Char :=
  let t0 := applyWordCorrections l
  let t1 := sub1mid (t0.length + 1) t0
  let t2 := sub1start (t1.length + 1) none t1
  let t3 := sub1end (t2.length + 1) t2
  let t4 := sub11mid (t3.length + 1) t3
  let t5 := sub11end (t4.length + 1) t4
  let t6 := sub0mid (t5.length + 1) t5
  let t7 := emailFixA (t6.length + 1) t6
  let t8 := emailFixB (t7.length + 1) t7
  let t9 := emailFixC (t8.length + 1) t8
  let t10 := wwwFix (t9.length + 1) t9
  let t11 := domFix (t10.length + 1) t10
  wsCollapse t11

/-- `OCRExtractor._correct_ocr_text` on `String`. -/
def correct_ocr_text (s : String) : String := ⟨correct_ocr_list s.data⟩

/-! ### `OCRExtractor._postprocess_text` (src/ocr.py) -/

def alnumCount (l : List Char) : Nat := (l.filter isAlnumC).length

/-- `OCRExtractor._postprocess_text`: correct each line, keep it (stripped)
iff its stripped length exceeds 1 and strictly more than half of its
characters are alphanumeric. -/
def postprocess_text (lines : List String) : List String :=
  lines.filterMap fun line =>
    let l := correct_ocr_list line.data
    if 1 < (pyStrip l).length ∧ l.length < 2 * alnumCount l then
      some ⟨pyStrip l⟩
    else none

/-! ### `CardDataParser` regex bank (src/parser.py, `PATTERNS`) -/

/-- `[A-Za-z0-9._%+-]` -/
def clsEmailLocal (c : Char) : Bool :=
  isAlnumC c || c = '.' || c = '_' || c = '%' || c = '+' || c = '-'

/-- `[@g]` under `re.IGNORECASE`. -/
def clsAtG (c : Char) : Bool := c = '@' || lowerC c = 'g'

/-- `[A-Za-z0-9.-]` -/
def clsEmailDom (c : Char) : Bool := isAlnumC c || c = '.' || c = '-'

/-- `[A-Z|a-z]` (the source's class literally includes the bar). -/
def clsTldChar (c : Char) : Bool := isAlphaC c || c = '|'

/-- `PATTERNS["email"]`:
`\b[A-Za-z0-9._%+-]+\s*[@g]\s*[A-Za-z0-9.-]+\s*\.\s*[A-Z|a-z]{2,}\b` -/
def emailRE : RE :=
  .cat .bnd (.cat (plusC clsEmailLocal) (.cat (.star isSpaceC) (.cat (.cls clsAtG)
    (.cat (.star isSpaceC) (.cat (plusC clsEmailDom) (.cat (.star isSpaceC)
      (.cat (lit1 '.') (.cat (.star isSpaceC) (.cat (rep2plus clsTldChar) .bnd)))))))))

/-- `[-.\s]` -/
def clsPhoneSep (c : Char) : Bool := c = '-' || c = '.' || isSpaceC c

/-- `[\d\s.-]` -/
def clsPhoneBody (c : Char) : Bool := isDigitC c || isSpaceC c || c = '.' || c = '-'

/-- `PATTERNS["phone"]`:
`(?:\+?\d{1,3}[-.\s]?)?(?:\(?\d{2,4}\)?[-.\s]?)?[\d\s.-]{6,14}\d` -/
def phoneRE : RE :=
  .cat (reOpt (.cat (reOpt (lit1 '+')) (.cat (repRange isDigitC 1 3) (repOpt clsPhoneSep 1))))
    (.cat (reOpt (.cat (reOpt (lit1 '(')) (.cat (repRange isDigitC 2 4)
        (.cat (reOpt (lit1 ')')) (repOpt clsPhoneSep 1)))))
      (.cat (repRange clsPhoneBody 6 14) (.cls isDigitC)))

/-- `[.\s;:]` -/
def clsDotPunct (c : Char) : Bool := c = '.' || isSpaceC c || c = ';' || c = ':'

/-- `PATTERNS["website"]`:
`(?:https?://)?(?:www[.\s;:]?\s*)?[a-zA-Z0-9][a-zA-Z0-9-]*[.\s;:]+\s*(?:com|org|net|io|co|edu|gov|biz|info)` -/
def websiteRE : RE :=
  .cat (reOpt (.cat (strCI "http") (.cat (reOpt (litCI 's')) (strCS "://"))))
    (.cat (reOpt (.cat (strCI "www") (.cat (repOpt clsDotPunct 1) (.star isSpaceC))))
      (.cat (.cls isAlnumC) (.cat (.star (fun c => isAlnumC c || c = '-'))
        (.cat (plusC clsDotPunct) (.cat (.star isSpaceC)
          (altStrsCI ["com", "org", "net", "io", "co", "edu", "gov", "biz", "info"]))))))

/-! ### `CardDataParser._extract_email` (src/parser.py) -/

/-- Characters stripped by `.replace(';','').replace(':','').replace("'",'')`. -/
def isEmailJunk (c : Char) : Bool := c = ';' || c = ':' || c = apos

/-- `CardDataParser._extract_email`, primary pattern branch: lowercase the
match, delete whitespace, then delete `;`/`:`/apostrophes. -/
def emailFromPrimary (text : List Char) : Option (List Char) :=
  match reSearch emailRE text with
  | none => none
  | some x =>
    some (((lowerL x.2.1).filter (fun c => !isSpaceC c)).filter (fun c => !isEmailJunk c))

def fbPrefixes1 : List String := ["info", "contact", "hello", "support", "admin", "sales"]

def fbPrefixes3 : List String := ["info", "contact", "hello", "support"]

/-- Group values matched by one of the fallback email patterns. -/
structure EmailGroups where
  g0 : List Char
  g1 : Option (List Char)
  g2 : List Char

/-- `[g@]? ` options at a position: consume the separator if present first
(greedy), then the empty alternative. -/
def sepOptions (l : List Char) : List (List Char) :=
  match l with
  | c :: cs => if c = 'g' || c = '@' then [cs, l] else [l]
  | [] => [l]

/-- Fallback pattern 1 at one position:
`(info|contact|hello|support|admin|sales)[g@]?(website|domain)?name\.?(com|org|net)` -/
def fb1At (l : List Char) : Option EmailGroups :=
  fbPrefixes1.findSome? fun pre =>
    if startsWithCI pre.data l then
      (sepOptions (l.drop pre.length)).findSome? fun t2 =>
        let wOptions : List (Option (List Char) × List Char) :=
          (if startsWithCI "website".data t2 then [(some "website".data, t2.drop 7)] else []) ++
          (if startsWithCI "domain".data t2 then [(some "domain".data, t2.drop 6)] else []) ++
          [(none, t2)]
        wOptions.findSome? fun wt =>
          if startsWithCI "name".data wt.2 then
            let t4 := wt.2.drop 4
            let dotOptions := match t4 with
              | '.' :: r => [r, t4]
              | _ => [t4]
            dotOptions.findSome? fun t5 =>
              (["com", "org", "net"] : List String).findSome? fun tld =>
                if startsWithCI tld.data t5 then
                  some ⟨(lowerL pre.data), wt.1, tld.data⟩
                else none
          else none
    else none

/-- Fallback pattern 2 at one position:
`([a-z0-9._+-]+)[g@]([a-z0-9.-]+)(com|org|net|io|co)`.
Group 1 is trimmed from its maximal run (greedy, longest first) until the
next character is the `[g@]` separator; likewise group 2 against the TLD. -/
def fb2At (l : List Char) : Option EmailGroups :=
  let cls1 : Char → Bool := fun c =>
    isLowerC c || isDigitC c || c = '.' || c = '_' || c = '+' || c = '-'
  let cls2 : Char → Bool := fun c => isLowerC c || isDigitC c || c = '.' || c = '-'
  let run1 := l.takeWhile cls1
  ((List.range run1.length).reverse.map (· + 1)).findSome? fun k1 =>
    match l.drop k1 with
    | s :: rest1 =>
      if s = 'g' || s = '@' then
        let run2 := rest1.takeWhile cls2
        ((List.range run2.length).reverse.map (· + 1)).findSome? fun k2 =>
          (["com", "org", "net", "io", "co"] : List String).findSome? fun tld =>
            if startsWithCI tld.data (rest1.drop k2) then
              some ⟨run1.take k1, some (rest1.take k2), tld.data⟩
            else none
      else none
    | [] => none

/-- Fallback pattern 3 at one position:
`(info|contact|hello|support)[g@]?([a-z]+)(com|org|net)` -/
def fb3At (l : List Char) : Option EmailGroups :=
  fbPrefixes3.findSome? fun pre =>
    if startsWithCI pre.data l then
      (sepOptions (l.drop pre.length)).findSome? fun t2 =>
        let run := t2.takeWhile isLowerC
        ((List.range run.length).reverse.map (· + 1)).findSome? fun k =>
          (["com", "org", "net"] : List String).findSome? fun tld =>
            if startsWithCI tld.data (t2.drop k) then
              some ⟨lowerL pre.data, some (t2.take k), tld.data⟩
            else none
    else none

/-- Leftmost application of a position matcher (`re.search` for the
fallback email patterns). -/
def scanFor (f : List Char → Option EmailGroups) : Nat → List Char → Option EmailGroups
  | 0, _ => none
  | _, [] => none
  | fuel + 1, c :: cs =>
    match f (c :: cs) with
    | some g => some g
    | none => scanFor f fuel cs

/-- The source's reconstruction of an email from fallback groups. -/
def emailFromGroups (g : EmailGroups) : List Char :=
  match g.g1 with
  | none => g.g0 ++ '@' :: "websitename.".data ++ g.g2
  | some d =>
    if d = "website".data ∨ d = "domain".data ∨ containsSub d "name".data then
      g.g0 ++ '@' :: "websitename.".data ++ g.g2
    else g.g0 ++ '@' :: d ++ '.' :: g.g2

/-- `CardDataParser._extract_email`. -/
def extract_email (text : List Char) : Option (List Char) :=
  match emailFromPrimary text with
  | some e => some e
  | none =>
    let cleaned := (lowerL text).filter fun c => !(isEmailJunk c || c = ' ')
    match scanFor fb1At (cleaned.length + 1) cleaned with
    | some g => some (emailFromGroups g)
    | none =>
      match scanFor fb2At (cleaned.length + 1) cleaned with
      | some g => some (emailFromGroups g)
      | none =>
        match scanFor fb3At (cleaned.length + 1) cleaned with
        | some g => some (emailFromGroups g)
        | none => none

/-! ### `CardDataParser._extract_phones` / `_normalize_phone` (src/parser.py) -/

/-- `re.sub(r'\s+', ' ', s)`: each whitespace run becomes a single space. -/
def squeezeWs : Nat → List Char → List Char
  | 0, l => l
  | _, [] => []
  | fuel + 1, c :: cs =>
    if isSpaceC c then ' ' :: squeezeWs fuel (cs.dropWhile isSpaceC)
    else c :: squeezeWs fuel cs

/-- `CardDataParser._normalize_phone`: keep digits and `+`; reject when
fewer than 10 digits remain. -/
def normalize_phone (m : List Char) : Option (List Char) :=
  let digits := m.filter fun c => isDigitC c || c = '+'
  if (digits.filter isDigitC).length < 10 then none else some digits

/-- Maximal runs of a character class (`re.findall` of a `[...]+` pattern). -/
def runsOf (p : Char → Bool) : Nat → List Char → List (List Char)
  | 0, _ => []
  | _, [] => []
  | fuel + 1, c :: cs =>
    if p c then ((c :: cs).takeWhile p) :: runsOf p fuel ((c :: cs).dropWhile p)
    else runsOf p fuel cs

/-- `[\d\s.\-()]` -/
def clsDigitGroup (c : Char) : Bool :=
  isDigitC c || isSpaceC c || c = '.' || c = '-' || c = '(' || c = ')'

/-- One step of the primary-pattern pass of `_extract_phones`: normalize the
match and append it unless rejected or already present. -/
def phonePass1Step (acc : List (List Char)) (m : List Char) : List (List Char) :=
  match normalize_phone m with
  | none => acc
  | some p => if acc.contains p then acc else acc ++ [p]

/-- One step of the digit-group pass of `_extract_phones`: keep the digits of
the group when there are 10 to 14 of them and the result is new. -/
def phonePass2Step (acc : List (List Char)) (g : List Char) : List (List Char) :=
  let d := g.filter isDigitC
  if 10 ≤ d.length ∧ d.length ≤ 14 then
    if acc.contains d then acc else acc ++ [d]
  else acc

/-- `CardDataParser._extract_phones`. -/
def extract_phones (text : List Char) : List (List Char) :=
  let noJunk := text.filter fun c => !(c = ';' || c = ':' || c = '|')
  let cleaned := squeezeWs (noJunk.length + 1) noJunk
  let phones1 := (findAll phoneRE cleaned).foldl phonePass1Step []
  (runsOf clsDigitGroup (cleaned.length + 1) cleaned).foldl phonePass2Step phones1


/-! ### `CardDataParser._extract_website` (src/parser.py) -/

def socialStrs : List String := ["linkedin.com", "twitter.com", "facebook.com"]

/-- `re.sub(r'[;:\s]+', '.', url)`: each run becomes a single dot. -/
def punctToDot : Nat → List Char → List Char
  | 0, l => l
  | _, [] => []
  | fuel + 1, c :: cs =>
    if c = ';' || c = ':' || isSpaceC c then
      '.' :: punctToDot fuel (cs.dropWhile fun x => x = ';' || x = ':' || isSpaceC x)
    else c :: punctToDot fuel cs

/-- `re.sub(r'\.+', '.', url)`: collapse dot runs. -/
def collapseDots : Nat → List Char → List Char
  | 0, l => l
  | _, [] => []
  | fuel + 1, c :: cs =>
    if c = '.' then '.' :: collapseDots fuel (cs.dropWhile (· = '.'))
    else c :: collapseDots fuel cs

/-- The source's URL cleanup after a primary-pattern match. -/
def cleanUrl (m : List Char) : List Char :=
  let u0 := m.filter fun c => !isSpaceC c
  let u1 := punctToDot (u0.length + 1) u0
  let u2 := collapseDots (u1.length + 1) u1
  if startsWithCS "http://".data u2 ∨ startsWithCS "https://".data u2 then u2
  else "https://".data ++ u2

/-- The primary-pattern loop of `_extract_website`: first match whose raw
text neither contains the email domain nor a social-media domain. -/
def websitePrimary (emailDomain : Option (List Char)) :
    List (List Char) → Option (List Char × List Char)
  | [] => none
  | m :: ms =>
    if (match emailDomain with
        | some d => !d.isEmpty && containsSub m d
        | none => false) then
      websitePrimary emailDomain ms
    else if socialStrs.any (fun s => containsSub m s.data) then
      websitePrimary emailDomain ms
    else some (m, cleanUrl m)

/-- `[a-z0-9.\s;:-]` (under `re.IGNORECASE`). -/
def clsSite2 (c : Char) : Bool :=
  isAlnumC c || c = '.' || isSpaceC c || c = ';' || c = ':' || c = '-'

/-- Fallback `(www[.\s;:]*[a-z0-9]+[a-z0-9.\s;:-]*\s*(com|org|net|io))`. -/
def siteFb1RE : RE :=
  .cat (strCI "www") (.cat (.star clsDotPunct) (.cat (plusC isAlnumC)
    (.cat (.star clsSite2) (.cat (.star isSpaceC) (altStrsCI ["com", "org", "net", "io"])))))

/-- Fallback `([a-z0-9]+name[.\s;:]*com)`. -/
def siteFb2RE : RE :=
  .cat (plusC isAlnumC) (.cat (strCI "name") (.cat (.star clsDotPunct) (strCI "com")))

/-- Fallback `([a-z0-9]+site[.\s;:]*com)`. -/
def siteFb3RE : RE :=
  .cat (plusC isAlnumC) (.cat (strCI "site") (.cat (.star clsDotPunct) (strCI "com")))

/-- The source's URL cleanup after a fallback-pattern match. -/
def cleanUrlFb (m : List Char) : List Char :=
  let u0 := m.filter fun c => !isSpaceC c
  let u1 := punctToDot (u0.length + 1) u0
  let u2 := collapseDots (u1.length + 1) u1
  let u3 :=
    if startsWithCS "http://".data u2 ∨ startsWithCS "https://".data u2 ∨
        startsWithCS "www.".data u2 then u2
    else "www.".data ++ u2
  if startsWithCS "http://".data u3 ∨ startsWithCS "https://".data u3 then u3
  else "https://".data ++ u3

/-- The email-domain exclusion input of `_extract_website`:
`email.split('@')[1]` when an email with an `@` was extracted. -/
def website_email_domain (text : List Char) : Option (List Char) :=
  match extract_email text with
  | some e =>
    if containsSub e "@".data then some ((splitOnC '@' e).getD 1 []) else none
  | none => none

/-- The lowercased text with `;`/`:` replaced by dots that `_extract_website`
matches against. -/
def website_cleaned (text : List Char) : List Char :=
  (lowerL text).map fun c => if c = ';' || c = ':' then '.' else c

/-- `CardDataParser._extract_website`. -/
def extract_website (text : List Char) : Option (List Char) :=
  let emailDomain := website_email_domain text
  let cleaned := website_cleaned text
  match websitePrimary emailDomain (findAll websiteRE cleaned) with
  | some x => some x.2
  | none =>
    match reSearch siteFb1RE cleaned with
    | some x => some (cleanUrlFb x.2.1)
    | none =>
      match reSearch siteFb2RE cleaned with
      | some x => some (cleanUrlFb x.2.1)
      | none =>
        match reSearch siteFb3RE cleaned with
        | some x => some (cleanUrlFb x.2.1)
        | none => none

/-! ### `CardDataParser._extract_linkedin` / `_extract_twitter` (src/parser.py) -/

/-- `[a-zA-Z0-9_-]` -/
def clsHandle (c : Char) : Bool := isAlnumC c || c = '_' || c = '-'

/-- `[a-zA-Z0-9_]` -/
def clsTwHandle (c : Char) : Bool := isAlnumC c || c = '_'

/-- `PATTERNS["linkedin"]`: `(?:linkedin\.com/in/|linkedin:\s*)([a-zA-Z0-9_-]+)`,
returned as `https://linkedin.com/in/{username}`. -/
def extract_linkedin_aux : Nat → List Char → Option (List Char)
  | 0, _ => none
  | _, [] => none
  | fuel + 1, c :: cs =>
    let l := c :: cs
    let alt1 :=
      if startsWithCI "linkedin.com/in/".data l then
        let run := (l.drop 16).takeWhile clsHandle
        if run.isEmpty then none else some run
      else none
    let alt2 :=
      if startsWithCI "linkedin:".data l then
        let run := ((l.drop 9).dropWhile isSpaceC).takeWhile clsHandle
        if run.isEmpty then none else some run
      else none
    match alt1 with
    | some u => some ("https://linkedin.com/in/".data ++ u)
    | none =>
      match alt2 with
      | some u => some ("https://linkedin.com/in/".data ++ u)
      | none => extract_linkedin_aux fuel cs

def extract_linkedin (text : List Char) : Option (List Char) :=
  extract_linkedin_aux (text.length + 1) text

/-- `PATTERNS["twitter"]`: `(?:@|twitter\.com/)([a-zA-Z0-9_]+)`, returned as
`@{handle}`. -/
def extract_twitter_aux : Nat → List Char → Option (List Char)
  | 0, _ => none
  | _, [] => none
  | fuel + 1, c :: cs =>
    let l := c :: cs
    let alt1 :=
      if c = '@' then
        let run := cs.takeWhile clsTwHandle
        if run.isEmpty then none else some run
      else none
    let alt2 :=
      if startsWithCI "twitter.com/".data l then
        let run := (l.drop 12).takeWhile clsTwHandle
        if run.isEmpty then none else some run
      else none
    match alt1 with
    | some u => some ('@' :: u)
    | none =>
      match alt2 with
      | some u => some ('@' :: u)
      | none => extract_twitter_aux fuel cs

def extract_twitter (text : List Char) : Option (List Char) :=
  extract_twitter_aux (text.length + 1) text

/-! ### `CardDataParser._clean_lines` / `_clean_ocr_text` (src/parser.py) -/

/-- `[;:,.\-_]` -/
def clsEdgePunct (c : Char) : Bool :=
  c = ';' || c = ':' || c = ',' || c = '.' || c = '-' || c = '_'

/-- `re.sub(r'([a-z])([A-Z])', r'\1 \2', text)` -/
def camelSplit : Nat → List Char → List Char
  | 0, l => l
  | _, [] => []
  | fuel + 1, a :: rest =>
    match rest with
    | b :: rest2 =>
      if isLowerC a && isUpperC b then a :: ' ' :: b :: camelSplit fuel rest2
      else a :: camelSplit fuel rest
    | [] => [a]

/-- `re.sub(r'([A-Z]{2,})([A-Z][a-z])', r'\1 \2', text)` -/
def capsSplit : Nat → List Char → List Char
  | 0, l => l
  | _, [] => []
  | fuel + 1, c :: cs =>
    let run := (c :: cs).takeWhile isUpperC
    if 3 ≤ run.length then
      match (c :: cs).drop run.length with
      | d :: rest2 =>
        if isLowerC d then
          (run.take (run.length - 1)) ++ ' ' :: run.getLastD c :: d :: capsSplit fuel rest2
        else c :: capsSplit fuel cs
      | [] => c :: capsSplit fuel cs
    else c :: capsSplit fuel cs

/-- `CardDataParser._clean_ocr_text`. -/
def clean_ocr_text (l : List Char) : List Char :=
  let t1 := (l.reverse.dropWhile clsEdgePunct).reverse
  let t2 := t1.dropWhile clsEdgePunct
  let t3 := camelSplit (t2.length + 1) t2
  let t4 := capsSplit (t3.length + 1) t3
  pyStrip t4

/-- `CardDataParser._clean_lines`. -/
def clean_lines (text : List Char) : List (List Char) :=
  (splitOnC '\n' text).filterMap fun line =>
    let c := clean_ocr_text (pyStrip line)
    if !c.isEmpty ∧ 1 < c.length then some c else none

/-! ### `CardDataParser._extract_name` / `_split_name` (src/parser.py) -/

def common_first_names : List String := [
  "james", "john", "robert", "michael", "william", "david", "richard", "joseph",
  "thomas", "charles", "christopher", "daniel", "matthew", "anthony", "mark",
  "donald", "steven", "paul", "andrew", "joshua", "kenneth", "kevin", "brian",
  "george", "edward", "ronald", "timothy", "jason", "jeffrey", "ryan", "jacob",
  "gary", "nicholas", "eric", "jonathan", "stephen", "larry", "justin", "scott",
  "brandon", "benjamin", "samuel", "raymond", "gregory", "frank", "alexander",
  "patrick", "jack", "dennis", "jerry", "tyler", "aaron", "jose", "adam", "nathan",
  "mary", "patricia", "jennifer", "linda", "elizabeth", "barbara", "susan",
  "jessica", "sarah", "karen", "lisa", "nancy", "betty", "margaret", "sandra",
  "ashley", "kimberly", "emily", "donna", "michelle", "dorothy", "carol", "amanda",
  "melissa", "deborah", "stephanie", "rebecca", "sharon", "laura", "cynthia",
  "kathleen", "amy", "angela", "shirley", "anna", "brenda", "pamela", "emma",
  "nicole", "helen", "samantha", "katherine", "christine", "debra", "rachel",
  "olivia", "sophia", "victoria", "grace", "natalie", "julia", "hannah",
  "stewart", "clark", "smith", "johnson", "williams", "brown", "jones", "miller",
  "davis", "wilson", "anderson", "taylor", "moore", "jackson", "martin", "lee",
  "thompson", "white", "harris", "sanchez", "robinson", "walker", "young", "allen",
  "king", "wright", "scott", "torres", "nguyen", "hill", "flores", "green", "adams",
  "nelson", "baker", "hall", "rivera", "campbell", "mitchell", "carter", "roberts",
  "syed", "rizvi", "khan", "ahmed", "ali", "hassan", "hussain", "mohammad", "kumar"]

def non_name_words : List String := [
  "real", "estate", "realestate", "agent", "your", "tagline", "here", "goes",
  "www", "com", "org", "net", "email", "phone", "fax", "mobile", "cell",
  "address", "street", "avenue", "road", "floor", "suite", "building",
  "usa", "florida", "california", "texas", "new", "york", "city",
  "info", "contact", "website", "web", "site", "name", "main", "hall",
  "royal", "galaxy", "tlorid", "yourtagiine", "yourtagline", "yourtagwne"]

def company_indicators : List String := [
  "inc", "inc.", "llc", "llp", "ltd", "ltd.",
  "corp", "corp.", "corporation", "company", "co.",
  "group", "partners", "solutions", "services",
  "technologies", "tech", "systems", "consulting",
  "industries", "enterprises", "associates"]

/-- `\b([A-Z]{2,}(?:\s+[A-Z]{2,}){1,3})\b` (case-sensitive). -/
def allCapsNameRE : RE :=
  let upper2 := rep2plus isUpperC
  let unit := RE.cat (plusC isSpaceC) upper2
  .cat .bnd (.cat upper2 (.cat (.cat unit (reOpt (.cat unit (reOpt unit)))) .bnd))

/-- The per-word validity-and-bonus loop for an ALL-CAPS candidate:
`none` when some word is rejected, otherwise the accumulated name bonus. -/
def capsWordsScore : List (List Char) → Option ℤ
  | [] => some 0
  | w :: ws =>
    let wl := lowerL w
    if non_name_words.any (fun s => s.data = wl) then none
    else if company_indicators.any (fun s => lowerL s.data = wl) then none
    else if !pyIsAlpha w || w.length < 2 then none
    else
      (capsWordsScore ws).map fun sc =>
        sc + (if common_first_names.any (fun s => s.data = wl) then 5 else 0)

/-- ALL-CAPS candidates from the full text, with scores. -/
def capsCandidates (full_text : List Char) : List (List Char × ℤ) :=
  (findAll allCapsNameRE full_text).foldl
    (fun acc m =>
      let t := pyTitle m
      let ws := pyWords t
      if 2 ≤ ws.length ∧ ws.length ≤ 3 then
        match capsWordsScore ws with
        | none => acc
        | some bonus => acc ++ [(t, 10 + bonus + (if ws.length = 2 then 2 else 0))]
      else acc)
    []

def nameSkipAddressWords : List String :=
  ["street", "st.", "ave", "avenue", "road", "rd.", "blvd", "suite", "floor"]

/-- Per-line name candidates over the first 8 cleaned lines. -/
def lineCandidates : List (ℕ × List Char) → List (List Char × ℤ)
  | [] => []
  | (i, line) :: rest =>
    let here : List (List Char × ℤ) :=
      if (reSearch emailRE line).isSome then []
      else if containsSub line "@".data then []
      else if 7 ≤ countDigits line then []
      else if company_indicators.any (fun s => containsSub (lowerL line) s.data) then []
      else if nameSkipAddressWords.any (fun s => containsSub (lowerL line) s.data) then []
      else
        let clean_line := pyStrip (line.filter fun c => isAlphaC c || isSpaceC c)
        let ws := pyWords clean_line
        if 2 ≤ ws.length ∧ ws.length ≤ 4 then
          if 4 * ws.length ≤ 5 * (ws.filter pyIsAlpha).length then
            if ws.all (fun w => w.isEmpty || (isUpperC (w.headD ' ') || pyIsUpper w)) then
              let cl := if pyIsUpper clean_line then pyTitle clean_line else clean_line
              [(cl, (6 - (i : ℤ)) + (if ws.length = 2 then 2 else 0))]
            else []
          else []
        else []
    here ++ lineCandidates rest

/-- Stable insertion into a score-descending list: an element goes after
every element with an equal or higher score (Python `list.sort` with
`reverse=True` is stable). -/
def insertDesc (x : List Char × ℤ) : List (List Char × ℤ) → List (List Char × ℤ)
  | [] => [x]
  | y :: ys => if y.2 < x.2 then x :: y :: ys else y :: insertDesc x ys

/-- Stable descending sort by score. -/
def sortDescByScore : List (List Char × ℤ) → List (List Char × ℤ)
  | [] => []
  | x :: xs => insertDesc x (sortDescByScore xs)

/-- `CardDataParser._extract_name`: collect ALL-CAPS and per-line candidates,
stable-sort by score descending, return the best. -/
def extract_name (lines : List (List Char)) (full_text : List Char) :
    Option (List Char) :=
  let candidates := capsCandidates full_text ++ lineCandidates (lines.take 8).enum
  match sortDescByScore candidates with
  | [] => none
  | c :: _ => some c.1

/-- `CardDataParser._split_name`. -/
def split_name (full_name : List Char) : Option (List Char) × Option (List Char) :=
  match pyWords (pyStrip full_name) with
  | [] => (none, none)
  | [p] => (some p, none)
  | p :: ps => (some p, some (joinSep ' ' ps))

/-! ### `CardDataParser._extract_title` (src/parser.py) -/

def compound_titles : List (String × String) := [
  ("realestateagent", "Real Estate Agent"),
  ("softwareengineer", "Software Engineer"),
  ("softwaredeveloper", "Software Developer"),
  ("businessdevelopment", "Business Development"),
  ("accountexecutive", "Account Executive"),
  ("marketingmanager", "Marketing Manager"),
  ("financialanalyst", "Financial Analyst"),
  ("customerservice", "Customer Service"),
  ("productmanager", "Product Manager"),
  ("projectmanager", "Project Manager"),
  ("seniorengineer", "Senior Engineer"),
  ("datascientist", "Data Scientist"),
  ("salesmanager", "Sales Manager"),
  ("dataanalyst", "Data Analyst"),
  ("salesrep", "Sales Representative"),
  ("realestate", "Real Estate")]

def common_titles : List String := [
  "ceo", "cto", "cfo", "coo", "cio", "cmo",
  "president", "vice president", "vp",
  "director", "manager", "senior", "junior",
  "engineer", "developer", "designer", "analyst",
  "consultant", "specialist", "coordinator",
  "executive", "officer", "lead", "head",
  "founder", "co-founder", "partner", "owner",
  "sales", "marketing", "hr", "human resources",
  "accountant", "attorney", "lawyer", "physician",
  "professor", "teacher", "researcher",
  "agent", "broker", "realtor", "real estate",
  "assistant", "associate", "advisor", "representative"]

def titleLineLoop : List (List Char) → Option (List Char)
  | [] => none
  | line :: rest =>
    let ll := lowerL line
    let cl := clean_ocr_text line
    let cll := lowerL cl
    if common_titles.any (fun t => containsSub ll t.data || containsSub cll t.data) then
      some (if pyIsUpper cl then pyTitle cl else cl)
    else titleLineLoop rest

/-- `CardDataParser._extract_title`. -/
def extract_title (lines : List (List Char)) : Option (List Char) :=
  let allNoSpace := (lines.map fun l => (lowerL l).filter (· ≠ ' ')).join
  match compound_titles.findSome?
      (fun ct => if containsSub allNoSpace ct.1.data then some ct.2.data else none) with
  | some t => some t
  | none => titleLineLoop lines

/-! ### `CardDataParser._extract_company` (src/parser.py) -/

def personal_domains : List String :=
  ["gmail", "yahoo", "hotmail", "outlook", "aol", "websitename"]

def company_keywords : List String :=
  ["realestate", "real estate", "consulting", "solutions",
   "technologies", "systems", "services", "agency", "group"]

def companyTitleWords : List String := ["agent", "manager", "director", "clark", "stewart"]

/-- The header scan over the first four lines of `_extract_company`. -/
def companyHeaderScan : List (List Char) → Option (List Char)
  | [] => none
  | line :: rest =>
    let cleaned := clean_ocr_text line
    let lns := (lowerL cleaned).filter (· ≠ ' ')
    if containsSub line "@".data || (reSearch phoneRE line).isSome then
      companyHeaderScan rest
    else if containsSub (lowerL line) "tagline".data ||
        containsSub (lowerL line) "goes here".data then
      companyHeaderScan rest
    else if containsSub (lowerL line) "www".data ||
        containsSub (lowerL line) ".com".data then
      companyHeaderScan rest
    else
      match company_keywords.findSome?
          (fun kw => if containsSub lns kw.data then some kw else none) with
      | some kw =>
        if kw = "realestate" then some "Real Estate".data else some (pyTitle cleaned)
      | none =>
        if pyIsUpper cleaned ∧ 1 ≤ (pyWords cleaned).length ∧ (pyWords cleaned).length ≤ 4 then
          if companyTitleWords.any (fun t => containsSub (lowerL cleaned) t.data) then
            companyHeaderScan rest
          else some (pyTitle cleaned)
        else companyHeaderScan rest

/-- `CardDataParser._extract_company`. -/
def extract_company (lines : List (List Char)) (email : Option (List Char)) :
    Option (List Char) :=
  let hint : Option (List Char) :=
    match email with
    | some e =>
      if containsSub e "@".data then
        let domain := (splitOnC '@' e).getD 1 []
        let dn := (splitOnC '.' domain).headD []
        if personal_domains.any (fun s => s.data = lowerL dn) then none
        else some (pyTitle dn)
      else none
    | none => none
  match lines.findSome? (fun line =>
      if company_indicators.any (fun ind => containsSub (lowerL line) ind.data) then
        some line
      else none) with
  | some l => some l
  | none =>
    match companyHeaderScan (lines.take 4) with
    | some c => some c
    | none => hint

/-! ### `CardDataParser._extract_address` (src/parser.py) -/

def us_states : List String := [
  "alabama", "alaska", "arizona", "arkansas", "california", "colorado",
  "connecticut", "delaware", "florida", "georgia", "hawaii", "idaho",
  "illinois", "indiana", "iowa", "kansas", "kentucky", "louisiana",
  "maine", "maryland", "massachusetts", "michigan", "minnesota",
  "mississippi", "missouri", "montana", "nebraska", "nevada",
  "new hampshire", "new jersey", "new mexico", "new york",
  "north carolina", "north dakota", "ohio", "oklahoma", "oregon",
  "pennsylvania", "rhode island", "south carolina", "south dakota",
  "tennessee", "texas", "utah", "vermont", "virginia", "washington",
  "west virginia", "wisconsin", "wyoming", "usa", "u.s.a"]

def state_variation_words : List String := [
  "florida", "florid", "tlorid", "fiorida",
  "california", "califomia", "caifornia",
  "texas", "tekas", "tezas",
  "new york", "newyork", "new yolk"]

/-- `\d+\s+[A-Za-z]` -/
def addrP1RE : RE := .cat (plusC isDigitC) (.cat (plusC isSpaceC) (.cls isAlphaC))

/-- `[A-Za-z]+,?\s*[A-Z]{2}\s*\d{5}` under `re.IGNORECASE`. -/
def addrP2RE : RE :=
  .cat (plusC isAlphaC) (.cat (reOpt (lit1 ',')) (.cat (.star isSpaceC)
    (.cat (repExact isAlphaC 2) (.cat (.star isSpaceC) (repExact isDigitC 5)))))

def addrKw3 : List String := ["suite", "floor", "building", "bldg", "apt", "unit"]

def addrKw4 : List String :=
  ["street", "st.", "avenue", "ave.", "road", "rd.", "boulevard", "blvd",
   "drive", "dr.", "lane", "ln.", "way", "place", "pl."]

def addrKw5 : List String := ["hall", "main", "center", "plaza", "tower"]

/-- `\b\d{4,5}\b` -/
def zip45RE : RE := .cat .bnd (.cat (repRange isDigitC 4 5) .bnd)

/-- `CardDataParser._extract_address`. -/
def extract_address (lines : List (List Char)) : Option (List Char) :=
  let addrLines := lines.filterMap fun line =>
    let ll := lowerL line
    if (reSearch emailRE line).isSome then none
    else if containsSub ll "linkedin".data || containsSub ll "twitter".data then none
    else if containsSub line "@".data then none
    else if max line.length 1 < 2 * countDigits line then none
    else
      let v1 := state_variation_words.any fun v => containsSub ll v.data
      let v2 := containsSub ll "usa".data || (reSearch zip45RE line).isSome
      let v3 := us_states.any fun s => containsSub ll s.data
      let v4 := (reSearch addrP1RE line).isSome || (reSearch addrP2RE line).isSome ||
        addrKw3.any (fun s => containsSubCI line s.data) ||
        addrKw4.any (fun s => containsSubCI line s.data) ||
        addrKw5.any (fun s => containsSubCI line s.data)
      if v1 || v2 || v3 || v4 then
        let cleaned := clean_ocr_text line
        some ((cleaned.reverse.dropWhile fun c => c = ';' || c = ':' || c = '-').reverse)
      else none
  match addrLines with
  | [] => none
  | _ => some (joinSep2 ", ".data addrLines)
where
  joinSep2 (sep : List Char) : List (List Char) → List Char
    | [] => []
    | [w] => w
    | w :: ws => w ++ sep ++ joinSep2 sep ws

/-! ### `ContactData` and `CardDataParser.parse` (src/parser.py) -/

structure ContactData where
  name : Option (List Char) := none
  first_name : Option (List Char) := none
  last_name : Option (List Char) := none
  email : Option (List Char) := none
  phone : List (List Char) := []
  company : Option (List Char) := none
  title : Option (List Char) := none
  website : Option (List Char) := none
  address : Option (List Char) := none
  linkedin : Option (List Char) := none
  twitter : Option (List Char) := none
  raw_text : Option (List Char) := none
  confidence_score : ℚ := 0
deriving Repr, DecidableEq

/-- Python truthiness of an optional string field followed by
`value.strip()` (the check `_calculate_confidence` performs). -/
def truthyStrippedStr (o : Option (List Char)) : Bool :=
  match o with
  | none => false
  | some s => !s.isEmpty && !(pyStrip s).isEmpty

/-- Round half to even at the fourth decimal (Python `round(x, 4)`). -/
def round4 (q : ℚ) : ℚ :=
  let x := q * 10000
  let f : ℤ := ⌊x⌋
  let r := x - f
  let n : ℤ :=
    if r < 1 / 2 then f
    else if 1 / 2 < r then f + 1
    else if f % 2 = 0 then f else f + 1
  (n : ℚ) / 10000

/-- `CardDataParser._calculate_confidence`.  The weight table, in dict
order; a field contributes its weight when truthy. -/
def calculate_confidence (c : ContactData) (ocr_results : List ℚ) : ℚ :=
  let fields : List (Bool × ℚ) := [
    (truthyStrippedStr c.name, 25 / 100),
    (truthyStrippedStr c.email, 25 / 100),
    (!c.phone.isEmpty, 15 / 100),
    (truthyStrippedStr c.company, 15 / 100),
    (truthyStrippedStr c.title, 10 / 100),
    (truthyStrippedStr c.website, 5 / 100),
    (truthyStrippedStr c.address, 5 / 100)]
  let max_score := fields.foldl (fun a f => a + f.2) 0
  let score := fields.foldl (fun a f => if f.1 then a + f.2 else a) 0
  let final :=
    if !ocr_results.isEmpty then
      let ocr_confidence := ocr_results.foldl (· + ·) 0 / (ocr_results.length : ℚ)
      score / max_score * (7 / 10) + ocr_confidence * (3 / 10)
    else if 0 < max_score then score / max_score else 0
  round4 final

/-- `CardDataParser.parse`. -/
def parse (text : List Char) (ocr_results : List ℚ) : ContactData :=
  if text.isEmpty ∨ (pyStrip text).isEmpty then
    { raw_text := some text, confidence_score := 0 }
  else
    let email := extract_email text
    let phone := extract_phones text
    let website := extract_website text
    let linkedin := extract_linkedin text
    let twitter := extract_twitter text
    let lines := clean_lines text
    let name := extract_name lines text
    let fl : Option (List Char) × Option (List Char) :=
      match name with
      | some n => split_name n
      | none => (none, none)
    let c : ContactData :=
      { name := name, first_name := fl.1, last_name := fl.2,
        email := email, phone := phone,
        company := extract_company lines email,
        title := extract_title lines,
        website := website, address := extract_address lines,
        linkedin := linkedin, twitter := twitter,
        raw_text := some text, confidence_score := 0 }
    { c with confidence_score := calculate_confidence c ocr_results }

/-! ### `CardResearchPipeline` (src/pipeline.py)

Contact dicts are modeled as total maps from string keys to `Val`; a missing
key is `Val.none` (Python `dict.get` returns `None`).  `Val.truthy` is
Python truthiness for the value shapes the pipeline stores. -/

inductive Val where
  | none
  | str (s : List Char)
  | list (l : List (List Char))
  | num (q : ℚ)
  | bool (b : Bool)
deriving DecidableEq, Repr

def Val.truthy : Val → Bool
  | .none => false
  | .str s => !s.isEmpty
  | .list l => !l.isEmpty
  | .num q => q ≠ 0
  | .bool b => b

def RecordD := String → Val

def emptyRecord : RecordD := fun _ => .none

def setR (r : RecordD) (k : String) (v : Val) : RecordD :=
  fun x => if x = k then v else r x

/-- `contact_dict.get(k, "") or ""`: the string value of a field, `""` when
the field is absent or falsy (the pipeline only ever stores strings there). -/
def getStrD (r : RecordD) (k : String) : List Char :=
  match r k with
  | .str s => s
  | _ => []

def GEMINI_FALLBACK_THRESHOLD : ℚ := 70 / 100

def MIN_REQUIRED_FIELDS : Nat := 3

/-- `CardResearchPipeline._has_ocr_errors`. -/
def has_ocr_errors (contact_dict : RecordD) : Bool :=
  let name := getStrD contact_dict "name"
  let company := getStrD contact_dict "company"
  let email := getStrD contact_dict "email"
  if !name.isEmpty && name.any isDigitC then true
  else if !company.isEmpty &&
      (2 < countDigits company && company.length < 10 * countDigits company) then true
  else
    let localPart := (splitOnC '@' email).headD []
    if !email.isEmpty &&
        (containsSub localPart "1".data || containsSub localPart "0".data) then true
    else false

def key_fields : List String := ["name", "email", "phone", "company"]

def found_fields (contact_dict : RecordD) : Nat :=
  (key_fields.filter fun f => (contact_dict f).truthy).length

/-- `CardResearchPipeline._should_use_gemini_fallback`.  `geminiAvailable`
stands for `self.gemini_ocr and self.gemini_ocr.is_available()`. -/
def should_use_gemini_fallback (geminiAvailable : Bool) (ocr_confidence : ℚ)
    (contact_dict : RecordD) : Bool :=
  if !geminiAvailable then false
  else if ocr_confidence < GEMINI_FALLBACK_THRESHOLD then true
  else if found_fields contact_dict < MIN_REQUIRED_FIELDS then true
  else if has_ocr_errors contact_dict then true
  else false

/-- The step-6 enrichment merge of `process_image`:
`for key, value in enriched_dict.items(): if value and not final_contact.get(key): ...` -/
def merge_enrichment (final_contact : RecordD) (items : List (String × Val)) : RecordD :=
  items.foldl
    (fun acc kv =>
      if kv.2.truthy && !(acc kv.1).truthy then setR acc kv.1 kv.2 else acc)
    final_contact

/-- The step-7 company-enrichment splice of `process_image`: logo URL and
industry are written (under their own keys) whenever non-empty. -/
def splice_company_enrichment (final_contact : RecordD) (logo_url industry : Val) :
    RecordD :=
  let r1 := if logo_url.truthy then setR final_contact "company_logo" logo_url
            else final_contact
  if industry.truthy then setR r1 "industry" industry else r1

/-- Steps 6 and 7 of `process_image` combined (lines 260–298). -/
def enrich_stage (final_contact : RecordD) (items : List (String × Val))
    (logo_url industry : Val) : RecordD :=
  splice_company_enrichment (merge_enrichment final_contact items) logo_url industry

/-- The `ContactRecord` fields of the data model (spec §3). -/
def contactFieldKeys : List String :=
  ["name", "first_name", "last_name", "title", "company", "email", "phone",
   "website", "address", "linkedin", "twitter", "raw_text", "confidence_score"]

/-- The heuristic `final_contact` dict built at step 5 of `process_image`
(lines 247–258).  Python's `cleaned_contact.get("name").split()[0]` is
modeled with `headD`/`[]` on the token list. -/
def heuristic_final (cleaned : RecordD) (ocr_confidence : ℚ) : RecordD :=
  let nameV := cleaned "name"
  let toks := pyWords (getStrD cleaned "name")
  let firstV : Val :=
    if nameV.truthy then .str (toks.headD []) else .none
  let lastV : Val :=
    if nameV.truthy && 1 < toks.length then .str (joinSep ' ' (toks.drop 1)) else .none
  fun k =>
    if k = "name" then cleaned "name"
    else if k = "first_name" then firstV
    else if k = "last_name" then lastV
    else if k = "title" then cleaned "title"
    else if k = "company" then cleaned "company"
    else if k = "email" then cleaned "email"
    else if k = "phone" then (if (cleaned "phone").truthy then cleaned "phone" else .list [])
    else if k = "website" then cleaned "website"
    else if k = "address" then cleaned "address"
    else if k = "confidence_score" then
      (match cleaned "confidence_score" with
       | .none => .num ocr_confidence
       | v => v)
    else .none

inductive PipelineOutcome where
  | noContact
  | contact (r : RecordD) (method : String)

/-- Steps 4–5 of `process_image`: decide on Gemini escalation and pick the
final contact.  `parsedContacts` is the post-processed heuristic contact when
parsing produced one; `gemini_result` is `_process_with_gemini`'s return
value (`none` whenever Gemini is unconfigured, fails, or raises). -/
def select_final (geminiAvailable : Bool) (ocr_confidence : ℚ)
    (parsedContacts : Option RecordD) (gemini_result : Option RecordD) :
    PipelineOutcome :=
  let cleaned := parsedContacts.getD emptyRecord
  let fallback :=
    if should_use_gemini_fallback geminiAvailable ocr_confidence cleaned then
      gemini_result
    else Option.none
  match fallback with
  | some g => .contact g "gemini_fallback"
  | none =>
    match parsedContacts with
    | none => .noContact
    | some _ => .contact (heuristic_final cleaned ocr_confidence) "easyocr"

/-! ### `FieldConfidenceScorer` (src/enrichment.py) -/

/-- `EMAIL_PATTERN = ^[a-zA-Z0-9._%+-]+@[a-zA-Z0-9.-]+\.[a-zA-Z]{2,}$` -/
def emailValRE : RE :=
  .cat (plusC clsEmailLocal) (.cat (lit1 '@') (.cat (plusC clsEmailDom)
    (.cat (lit1 '.') (rep2plus isAlphaC))))

/-- `PHONE_PATTERN =
`^[\+]?[(]?[0-9]{1,3}[)]?[-\s\.]?[(]?[0-9]{1,4}[)]?[-\s\.]?[0-9]{1,4}[-\s\.]?[0-9]{1,9}$` -/
def phoneValRE : RE :=
  .cat (reOpt (lit1 '+')) (.cat (reOpt (lit1 '(')) (.cat (repRange isDigitC 1 3)
    (.cat (reOpt (lit1 ')')) (.cat (repOpt clsPhoneSep 1) (.cat (reOpt (lit1 '('))
      (.cat (repRange isDigitC 1 4) (.cat (reOpt (lit1 ')'))
        (.cat (repOpt clsPhoneSep 1) (.cat (repRange isDigitC 1 4)
          (.cat (repOpt clsPhoneSep 1) (repRange isDigitC 1 9)))))))))))

/-- `URL_PATTERN = ^(?:https?://)?(?:www\.)?[a-zA-Z0-9-]+\.[a-zA-Z]{2,}` -/
def urlValRE : RE :=
  .cat (reOpt (.cat (strCS "http") (.cat (reOpt (lit1 's')) (strCS "://"))))
    (.cat (reOpt (strCS "www.")) (.cat (plusC (fun c => isAlnumC c || c = '-'))
      (.cat (lit1 '.') (rep2plus isAlphaC))))

/-- `pattern.match(s)` for a `^...$`-anchored pattern: some backtracking
branch consumes the whole string. -/
def fullMatch (r : RE) (l : List Char) : Bool :=
  (reMatches r none l).any fun m => m.2.isEmpty

/-- `pattern.match(s)` for a `^...`-anchored pattern without `$`. -/
def startMatch (r : RE) (l : List Char) : Bool :=
  !(reMatches r none l).isEmpty

/-- `NAME_PATTERN = ^[A-Z][a-z]+(?:\s+[A-Z][a-z]+)+$`, as a direct checker
(its character classes are disjoint, so greedy matching is deterministic). -/
def nameGroupsLoop : Nat → Bool → List Char → Bool
  | 0, _, _ => false
  | _, seen, [] => seen
  | fuel + 1, _, l =>
    let sp := l.takeWhile isSpaceC
    if sp.isEmpty then false
    else
      match l.drop sp.length with
      | d :: ds =>
        if isUpperC d then
          let low := ds.takeWhile isLowerC
          if low.isEmpty then false
          else nameGroupsLoop fuel true (ds.drop low.length)
        else false
      | [] => false

def namePatternFull (l : List Char) : Bool :=
  match l with
  | c :: cs =>
    if isUpperC c then
      let low := cs.takeWhile isLowerC
      if low.isEmpty then false
      else nameGroupsLoop (cs.length + 1) false (cs.drop low.length)
    else false
  | [] => false

/-- `[|!1l]` -/
def clsConfusable (c : Char) : Bool := c = '|' || c = '!' || c = '1' || c = 'l'

def twoConsec (p : Char → Bool) : List Char → Bool
  | a :: b :: rest => (p a && p b) || twoConsec p (b :: rest)
  | _ => false

def threeConsec (p : Char → Bool) : List Char → Bool
  | a :: b :: c :: rest => (p a && p b && p c) || threeConsec p (b :: c :: rest)
  | _ => false

/-- `any(pattern.search(s) for pattern in OCR_ERROR_PATTERNS)`:
a digit, or `[|!1l]{2,}`, or `\s{3,}`. -/
def ocrErrorSig (l : List Char) : Bool :=
  l.any isDigitC || twoConsec clsConfusable l || threeConsec isSpaceC l

def getStrVal : Val → List Char
  | .str s => s
  | _ => []

/-- `FieldConfidenceScorer._score_name`. -/
def score_name (v : Val) : ℚ × String :=
  if !v.truthy then (0, "missing")
  else
    let name := getStrVal v
    let s1 : ℚ := if namePatternFull name then 1 / 2 + 3 / 10 else 1 / 2
    let wc := (pyWords name).length
    let s2 := if 2 ≤ wc ∧ wc ≤ 4 then s1 + 1 / 10 else s1
    let s3 := if ocrErrorSig name then s2 - 3 / 10 else s2
    let s4 := if name = pyTitle name then s3 + 1 / 10 else s3
    let q1 : String := if namePatternFull name then "likely" else "uncertain"
    let q3 := if ocrErrorSig name then "suspicious" else q1
    let q4 := if name = pyTitle name ∧ q3 ≠ "suspicious" then "verified" else q3
    (min (max s4 0) 1, q4)

def free_email_domains : List String :=
  ["gmail.com", "yahoo.com", "hotmail.com", "outlook.com"]

def good_tlds : List String := ["com", "org", "net", "edu", "gov", "io", "co"]

/-- `FieldConfidenceScorer._score_email`. -/
def score_email (v : Val) : ℚ × String :=
  if !v.truthy then (0, "missing")
  else
    let email := getStrVal v
    if fullMatch emailValRE email then
      let domain := lowerL ((splitOnC '@' email).getD 1 [])
      let s1 : ℚ :=
        if free_email_domains.any (fun d => d.data = domain) then 8 / 10
        else 8 / 10 + 1 / 10
      let q1 : String :=
        if free_email_domains.any (fun d => d.data = domain) then "valid_format"
        else "business_email"
      let tld := (splitOnC '.' domain).getLastD []
      let s2 := if good_tlds.any (fun t => t.data = tld) then s1 + 1 / 10 else s1
      (min s2 1, q1)
    else if containsSub email "@".data ∧ containsSub email ".".data then
      (min ((4 : ℚ) / 10) 1, "suspicious")
    else (min (0 : ℚ) 1, "invalid")

/-- `FieldConfidenceScorer._score_phone`. -/
def score_phone (v : Val) : ℚ × String :=
  if !v.truthy then (0, "missing")
  else
    let phone : List Char :=
      match v with
      | .list l => l.headD []
      | w => getStrVal w
    let clean := phone.filter fun c =>
      !(isSpaceC c || c = '.' || c = '-' || c = '(' || c = ')')
    let dc := countDigits clean
    if 7 ≤ dc ∧ dc ≤ 15 then
      let s1 : ℚ := if 10 ≤ dc then 9 / 10 else 7 / 10
      let q1 : String := if 10 ≤ dc then "complete" else "partial"
      let s2 :=
        if startsWithCS "+".data clean ∨ startsWithCS "1".data clean then s1 + 1 / 10
        else s1
      (min s2 1, q1)
    else if 0 < dc then (min ((3 : ℚ) / 10) 1, "partial")
    else (min (0 : ℚ) 1, "invalid")

def company_score_indicators : List String :=
  ["inc", "llc", "ltd", "corp", "co", "company", "group", "international"]

/-- `FieldConfidenceScorer._score_company`. -/
def score_company (v : Val) : ℚ :=
  if !v.truthy then 0
  else
    let company := getStrVal v
    let s0 : ℚ := 6 / 10
    let s1 := if 3 ≤ company.length ∧ company.length ≤ 100 then s0 + 2 / 10 else s0
    let s2 :=
      if company_score_indicators.any (fun i => containsSub (lowerL company) i.data) then
        s1 + 1 / 10
      else s1
    let s3 := if ocrErrorSig company then s2 - 2 / 10 else s2
    min (max s3 0) 1

def title_score_keywords : List String := [
  "manager", "director", "president", "ceo", "cto", "cfo", "vp",
  "engineer", "developer", "designer", "analyst", "consultant",
  "agent", "specialist", "coordinator", "lead", "senior", "founder",
  "owner", "partner", "associate", "executive", "officer"]

/-- `FieldConfidenceScorer._score_title`. -/
def score_title (v : Val) : ℚ :=
  if !v.truthy then 0
  else
    let title := getStrVal v
    let s0 : ℚ := 1 / 2
    let s1 :=
      if title_score_keywords.any (fun k => containsSub (lowerL title) k.data) then
        s0 + 4 / 10
      else s0
    let s2 := if 3 ≤ title.length ∧ title.length ≤ 50 then s1 + 1 / 10 else s1
    min s2 1

/-- `FieldConfidenceScorer._score_website`. -/
def score_website (v : Val) : ℚ :=
  if !v.truthy then 0
  else
    let website := getStrVal v
    if startMatch urlValRE website then 9 / 10
    else if containsSub website ".".data then 1 / 2
    else 2 / 10

def address_score_indicators : List String :=
  ["street", "st", "avenue", "ave", "road", "rd", "drive", "dr",
   "suite", "floor", "building", "blvd", "lane", "ln", "way"]

/-- `\b\d{5}(?:-\d{4})?\b` -/
def zipValRE : RE :=
  .cat .bnd (.cat (repExact isDigitC 5)
    (.cat (reOpt (.cat (lit1 '-') (repExact isDigitC 4))) .bnd))

/-- `\b[A-Z]{2}\b` -/
def stateAbbrRE : RE := .cat .bnd (.cat (repExact isUpperC 2) .bnd)

/-- `FieldConfidenceScorer._score_address`. -/
def score_address (v : Val) : ℚ :=
  if !v.truthy then 0
  else
    let address := getStrVal v
    let s0 : ℚ := 4 / 10
    let s1 :=
      if address_score_indicators.any (fun i => containsSub (lowerL address) i.data) then
        s0 + 3 / 10
      else s0
    let s2 := if (reSearch zipValRE address).isSome then s1 + 2 / 10 else s1
    let s3 := if (reSearch stateAbbrRE address).isSome then s2 + 1 / 10 else s2
    min s3 1

/-- `FieldConfidenceScorer._score_linkedin`. -/
def score_linkedin (v : Val) : ℚ :=
  if !v.truthy then 0
  else
    let linkedin := getStrVal v
    if containsSub (lowerL linkedin) "linkedin.com".data then 95 / 100
    else if startsWithCS "in/".data linkedin then 7 / 10
    else 3 / 10

structure FieldConfidence where
  name : ℚ := 0
  title : ℚ := 0
  company : ℚ := 0
  email : ℚ := 0
  phone : ℚ := 0
  website : ℚ := 0
  address : ℚ := 0
  linkedin : ℚ := 0
  overall : ℚ := 0
  name_quality : String := "unknown"
  email_quality : String := "unknown"
  phone_quality : String := "unknown"
deriving Repr, DecidableEq

/-- The overall-confidence accumulation loop of `score_all_fields`:
for fields with a positive score, sum `score·weight` and the weights. -/
def overallSums (pairs : List (ℚ × ℚ)) : ℚ × ℚ :=
  pairs.foldl
    (fun acc x => if 0 < x.1 then (acc.1 + x.1 * x.2, acc.2 + x.2) else acc)
    (0, 0)

/-- `FieldConfidenceScorer.score_all_fields`
(`base_ocr_confidence` is the constructor argument). -/
def score_all_fields (base_ocr_confidence : ℚ) (contact_data : RecordD) :
    FieldConfidence :=
  let n := (score_name (contact_data "name")).1
  let nq := (score_name (contact_data "name")).2
  let e := (score_email (contact_data "email")).1
  let eq2 := (score_email (contact_data "email")).2
  let p := (score_phone (contact_data "phone")).1
  let pq := (score_phone (contact_data "phone")).2
  let co := score_company (contact_data "company")
  let t := score_title (contact_data "title")
  let w := score_website (contact_data "website")
  let a := score_address (contact_data "address")
  let li := score_linkedin (contact_data "linkedin")
  let pairs : List (ℚ × ℚ) := [
    (n, 25 / 100), (e, 25 / 100), (p, 15 / 100), (co, 15 / 100),
    (t, 10 / 100), (w, 5 / 100), (a, 3 / 100), (li, 2 / 100)]
  let sums := overallSums pairs
  let overall := if 0 < sums.2 then sums.1 / sums.2 * base_ocr_confidence else 0
  { name := n, title := t, company := co, email := e, phone := p,
    website := w, address := a, linkedin := li, overall := overall,
    name_quality := nq, email_quality := eq2, phone_quality := pq }

/-! ## Claim theorems -/

/-- C3, counterexample: `_correct_ocr_text` is not idempotent.  The
letter-`1`-letter rewrite is applied left-to-right without overlap, so
`"a1a1a"` corrects to `"ala1a"` in one pass and only a second pass reaches
`"alala"`. -/
theorem correct_not_idempotent_cex :
    correct_ocr_text "a1a1a" = "ala1a" ∧
    correct_ocr_text (correct_ocr_text "a1a1a") = "alala" ∧
    correct_ocr_text (correct_ocr_text "a1a1a") ≠ correct_ocr_text "a1a1a" := by
  refine ⟨by decide, by decide, by decide⟩

/-- C3, amended: idempotence of `_correct_ocr_text` does not hold for all
strings, but it does hold on the spec's two end-to-end scenario inputs
(scenario A, the clean card, and scenario B, the OCR-noise card). -/
theorem correct_idempotent_on_scenarios :
    correct_ocr_text (correct_ocr_text "JOHN DOE\nSenior Engineer\nAcme Solutions Inc.\njohn.doe@acmesolutions.com\n(555) 123-4567\nwww.acmesolutions.com") =
      correct_ocr_text "JOHN DOE\nSenior Engineer\nAcme Solutions Inc.\njohn.doe@acmesolutions.com\n(555) 123-4567\nwww.acmesolutions.com" ∧
    correct_ocr_text (correct_ocr_text "Wi11iam Mi11er\nRea1 Estate Agent\ninfo@rea1ty.c0m") =
      correct_ocr_text "Wi11iam Mi11er\nRea1 Estate Agent\ninfo@rea1ty.c0m" := by
  refine ⟨by decide, by decide⟩

/-- C8, counterexample: the source drops a line whose characters are
*exactly* 50% alphanumeric (`"ab--"`: length 4, 2 alphanumeric, stripped
length 4 > 1), while the claim keeps every line that is not *below* 50%. -/
theorem line_filter_boundary_cex :
    correct_ocr_list "ab--".data = "ab--".data ∧
    ¬(2 * alnumCount "ab--".data < "ab--".data.length ∨
      (pyStrip "ab--".data).length ≤ 1) ∧
    postprocess_text ["ab--"] = [] := by
  refine ⟨by decide, by decide, by decide⟩

/-- C8, amended: a corrected line is dropped by `_postprocess_text` exactly
when **at most** 50% of its characters are alphanumeric or its stripped
length is at most 1; every other line is kept, stripped, in original
order. -/
theorem line_filter_characterization (lines : List String) :
    postprocess_text lines = lines.filterMap fun line =>
      let l := correct_ocr_list line.data
      if 2 * alnumCount l ≤ l.length ∨ (pyStrip l).length ≤ 1 then none
      else some ⟨pyStrip l⟩ := by
  unfold postprocess_text
  apply List.filterMap_congr
  intro line _
  simp only []
  by_cases h : 2 * alnumCount (correct_ocr_list line.data) ≤ (correct_ocr_list line.data).length ∨
      (pyStrip (correct_ocr_list line.data)).length ≤ 1
  · rw [if_neg (by omega), if_pos h]
  · rw [if_pos (by omega), if_neg h]

/-- C6: `parse` on empty or whitespace-only input returns a record whose
only populated parts are the raw text and a zero confidence score; every
extraction field is absent. -/
theorem parse_malformed_input (text : List Char) (ocr_results : List ℚ)
    (h : pyStrip text = []) :
    parse text ocr_results = { raw_text := some text, confidence_score := 0 } := by
  unfold parse
  rw [if_pos]
  right
  simp [h]

/-- C6, witness at the whitespace-only input `"  \n "`. -/
theorem parse_malformed_input_witness :
    pyStrip "  \n ".data = [] ∧
    parse "  \n ".data [] = { raw_text := some "  \n ".data, confidence_score := 0 } :=
  ⟨by decide, parse_malformed_input "  \n ".data [] (by decide)⟩

theorem split_name_fst (n : List Char) :
    (split_name n).1 = (pyWords (pyStrip n)).head? := by
  unfold split_name
  rcases h : pyWords (pyStrip n) with _ | ⟨p, _ | ⟨q, ps⟩⟩ <;> simp

theorem split_name_snd (n : List Char) :
    (split_name n).2 =
      match pyWords (pyStrip n) with
      | [] => none
      | [_] => none
      | _ :: ps => some (joinSep ' ' ps) := by
  unfold split_name
  rcases h : pyWords (pyStrip n) with _ | ⟨p, _ | ⟨q, ps⟩⟩ <;> simp

/-- C10: `parse` wires `_split_name` to the extracted name: `first_name` is
the first whitespace token of the extracted name, `last_name` the remaining
tokens joined by single spaces (absent when there are fewer than two
tokens); both are absent when no name is extracted. -/
theorem parse_name_splitting (text : List Char) (ocr_results : List ℚ) :
    (parse text ocr_results).first_name =
      ((parse text ocr_results).name).bind
        (fun n => (pyWords (pyStrip n)).head?) ∧
    (parse text ocr_results).last_name =
      ((parse text ocr_results).name).bind (fun n =>
        match pyWords (pyStrip n) with
        | [] => none
        | [_] => none
        | _ :: ps => some (joinSep ' ' ps)) := by
  unfold parse
  split
  · exact ⟨rfl, rfl⟩
  · simp only []
    cases hn : extract_name (clean_lines text) text with
    | none => simp [hn]
    | some n => simp [hn, split_name_fst, split_name_snd]

theorem any_isEmpty_false {p : Char → Bool} {l : List Char} (h : l.any p = true) :
    l.isEmpty = false := by
  cases l <;> simp_all

theorem countDigits_isEmpty_false {l : List Char} (h : 2 < countDigits l) :
    l.isEmpty = false := by
  cases l with
  | nil => simp [countDigits] at h
  | cons c cs => rfl

/-- The corruption check `_has_ocr_errors`, as the spec's three-way
disjunction (the code's non-emptiness guards are redundant: an empty field
cannot satisfy its condition). -/
theorem has_ocr_errors_iff (d : RecordD) :
    has_ocr_errors d = true ↔
      ((getStrD d "name").any isDigitC = true ∨
       (2 < countDigits (getStrD d "company") ∧
         10 * countDigits (getStrD d "company") > (getStrD d "company").length) ∨
       (containsSub ((splitOnC '@' (getStrD d "email")).headD []) "1".data = true ∨
        containsSub ((splitOnC '@' (getStrD d "email")).headD []) "0".data = true)) := by
  constructor
  · intro h
    unfold has_ocr_errors at h
    simp only [] at h
    split_ifs at h with h1 h2 h3
    · simp only [Bool.and_eq_true] at h1
      exact Or.inl h1.2
    · simp only [Bool.and_eq_true, decide_eq_true_iff] at h2
      exact Or.inr (Or.inl (by omega))
    · simp only [Bool.and_eq_true, Bool.or_eq_true] at h3
      exact Or.inr (Or.inr h3.2)
  · intro h
    unfold has_ocr_errors
    simp only []
    rcases h with hA | hB | hC
    · rw [if_pos]
      rw [Bool.and_eq_true]
      exact ⟨by rw [Bool.not_eq_true', any_isEmpty_false hA], hA⟩
    · have hne : (getStrD d "company").isEmpty = false := countDigits_isEmpty_false hB.1
      split_ifs with h1 h2 h3
      · rfl
      · rfl
      · rfl
      · exfalso
        apply h2
        rw [Bool.and_eq_true, Bool.and_eq_true, decide_eq_true_iff, decide_eq_true_iff]
        exact ⟨by rw [Bool.not_eq_true', hne], hB.1, by omega⟩
    · have hne : (getStrD d "email").isEmpty = false := by
        rcases he : getStrD d "email" with _ | ⟨c, cs⟩
        · rw [he] at hC
          rcases hC with hC | hC <;> exact absurd hC (by decide)
        · rfl
      split_ifs with h1 h2 h3
      · rfl
      · rfl
      · rfl
      · exfalso
        apply h3
        rw [Bool.and_eq_true, Bool.or_eq_true]
        exact ⟨by rw [Bool.not_eq_true', hne], hC⟩

/-- C2: with the Gemini collaborator available, `_should_use_gemini_fallback`
returns `true` exactly when the aggregate OCR confidence is below 0.70, or
fewer than 3 of the key fields {name, email, phone, company} are populated,
or the corruption check fires: a digit in the extracted name; more than two
digit characters making up over 10% of the extracted company; or a `1`/`0`
in the email local part. -/
theorem escalation_trigger_iff (ocr_confidence : ℚ) (d : RecordD) :
    should_use_gemini_fallback true ocr_confidence d = true ↔
      ocr_confidence < 70 / 100 ∨
      ((["name", "email", "phone", "company"] : List String).filter
          (fun k => (d k).truthy)).length < 3 ∨
      ((getStrD d "name").any isDigitC = true ∨
       (2 < countDigits (getStrD d "company") ∧
         10 * countDigits (getStrD d "company") > (getStrD d "company").length) ∨
       (containsSub ((splitOnC '@' (getStrD d "email")).headD []) "1".data = true ∨
        containsSub ((splitOnC '@' (getStrD d "email")).headD []) "0".data = true)) := by
  have hcorr := has_ocr_errors_iff d
  have hstep : should_use_gemini_fallback true ocr_confidence d =
      (if ocr_confidence < GEMINI_FALLBACK_THRESHOLD then true
       else if found_fields d < MIN_REQUIRED_FIELDS then true
       else if has_ocr_errors d = true then true else false) := rfl
  rw [hstep]
  split_ifs with c1 c2 c3
  · simp only [true_iff]
    exact Or.inl c1
  · simp only [true_iff]
    exact Or.inr (Or.inl c2)
  · simp only [true_iff]
    exact Or.inr (Or.inr (hcorr.mp c3))
  · apply iff_of_false (by simp)
    intro hR
    rcases hR with h | h | h
    · exact c1 h
    · exact c2 h
    · exact c3 (hcorr.mpr h)

/-- C4: the escalation selection of `process_image` (steps 4–5).  When
escalation is indicated but `_process_with_gemini` yields nothing, the
heuristic record is returned; when it succeeds, its result replaces the
heuristic record wholesale; and a `gemini_fallback` outcome can only come
from a successful VLM call under an indicated escalation. -/
theorem vlm_fallback_selection (ocr_confidence : ℚ) (c : RecordD)
    (gem : Option RecordD) (avail : Bool) :
    (should_use_gemini_fallback avail ocr_confidence c = true → gem = none →
      select_final avail ocr_confidence (some c) gem =
        .contact (heuristic_final c ocr_confidence) "easyocr") ∧
    (∀ g, should_use_gemini_fallback avail ocr_confidence c = true → gem = some g →
      select_final avail ocr_confidence (some c) gem = .contact g "gemini_fallback") ∧
    (∀ r m, select_final avail ocr_confidence (some c) gem = .contact r m →
      m = "gemini_fallback" →
      gem = some r ∧ should_use_gemini_fallback avail ocr_confidence c = true) := by
  unfold select_final
  simp only [Option.getD_some]
  by_cases he : should_use_gemini_fallback avail ocr_confidence c = true
  · rw [if_pos he]
    cases gem with
    | none =>
      refine ⟨?_, ?_, ?_⟩
      · intro _ _
        rfl
      · intro g _ hg
        cases hg
      · intro r m h hm
        simp only [] at h
        cases h
        exact absurd hm (by decide)
    | some g =>
      refine ⟨?_, ?_, ?_⟩
      · intro _ hn
        cases hn
      · intro g2 _ hg
        cases hg
        rfl
      · intro r m h hm
        simp only [] at h
        cases h
        exact ⟨rfl, he⟩
  · rw [if_neg he]
    refine ⟨?_, ?_, ?_⟩
    · intro h _
      exact absurd h he
    · intro g h _
      exact absurd h he
    · intro r m h hm
      simp only [] at h
      cases h
      exact absurd hm (by decide)

/-- C4, witness: low OCR confidence with no Gemini result degrades to the
heuristic record. -/
theorem vlm_fallback_selection_witness :
    should_use_gemini_fallback true (1 / 2) emptyRecord = true ∧
    select_final true (1 / 2) (some emptyRecord) Option.none =
      .contact (heuristic_final emptyRecord (1 / 2)) "easyocr" := by
  have hlt : (1 / 2 : ℚ) < GEMINI_FALLBACK_THRESHOLD := by
    norm_num [GEMINI_FALLBACK_THRESHOLD]
  have h : should_use_gemini_fallback true (1 / 2) emptyRecord = true := by
    unfold should_use_gemini_fallback
    rw [if_neg (by decide : ¬((!true) = true)), if_pos hlt]
  exact ⟨h, (vlm_fallback_selection (1 / 2) emptyRecord Option.none true).1 h rfl⟩

theorem merge_enrichment_cons (r : RecordD) (kv : String × Val)
    (rest : List (String × Val)) :
    merge_enrichment r (kv :: rest) =
      merge_enrichment
        (if kv.2.truthy && !(r kv.1).truthy then setR r kv.1 kv.2 else r) rest := by
  simp [merge_enrichment, List.foldl_cons]

theorem merge_enrichment_keep :
    ∀ (items : List (String × Val)) (r : RecordD) (k : String),
      (r k).truthy = true → merge_enrichment r items k = r k := by
  intro items
  induction items with
  | nil => intro r k _; rfl
  | cons kv rest ih =>
    intro r k h
    rw [merge_enrichment_cons]
    by_cases hc : (kv.2.truthy && !(r kv.1).truthy) = true
    · have hne : k ≠ kv.1 := by
        intro he
        rw [Bool.and_eq_true, Bool.not_eq_true'] at hc
        rw [← he, h] at hc
        exact Bool.true_eq_false ▸ hc.2 ▸ rfl
      have hr : (setR r kv.1 kv.2) k = r k := by simp [setR, hne]
      rw [if_pos hc, ih (setR r kv.1 kv.2) k (by rw [hr]; exact h), hr]
    · rw [if_neg hc, ih r k h]

theorem merge_enrichment_fill :
    ∀ (items : List (String × Val)) (r : RecordD) (k : String),
      merge_enrichment r items k ≠ r k →
      (r k).truthy = false ∧ (merge_enrichment r items k).truthy = true := by
  intro items
  induction items with
  | nil => intro r k h; exact absurd rfl h
  | cons kv rest ih =>
    intro r k h
    rw [merge_enrichment_cons] at h ⊢
    by_cases hc : (kv.2.truthy && !(r kv.1).truthy) = true
    · rw [if_pos hc] at h ⊢
      by_cases hs : (setR r kv.1 kv.2) k = r k
      · obtain ⟨h1, h2⟩ := ih (setR r kv.1 kv.2) k (by rw [hs]; exact h)
        exact ⟨by rw [← hs]; exact h1, h2⟩
      · have hke : k = kv.1 := by
          by_contra hne
          exact hs (by simp [setR, hne])
        rw [Bool.and_eq_true, Bool.not_eq_true'] at hc
        have hset : (setR r kv.1 kv.2) k = kv.2 := by simp [setR, hke]
        refine ⟨by rw [hke]; exact hc.2, ?_⟩
        rw [merge_enrichment_keep _ _ k (by rw [hset]; exact hc.1), hset]
        exact hc.1
    · rw [if_neg hc] at h ⊢
      exact ih r k h

/-- Keys other than `company_logo` and `industry` are untouched by the
step-7 splice. -/
theorem splice_other {k : String} (hk1 : k ≠ "company_logo") (hk2 : k ≠ "industry")
    (r : RecordD) (logo_url industry : Val) :
    splice_company_enrichment r logo_url industry k = r k := by
  unfold splice_company_enrichment
  split_ifs <;> simp [setR, hk1, hk2]

/-- C1: the enrichment merge of `process_image` (steps 6–7) never replaces a
non-empty `ContactRecord` field, and any field it changes was empty before
and is non-empty after. -/
theorem fill_dont_clobber (r : RecordD) (items : List (String × Val))
    (logo_url industry : Val) (k : String) (hk : k ∈ contactFieldKeys) :
    ((r k).truthy = true → enrich_stage r items logo_url industry k = r k) ∧
    (enrich_stage r items logo_url industry k ≠ r k →
      (r k).truthy = false ∧ (enrich_stage r items logo_url industry k).truthy = true) := by
  have hne : k ≠ "company_logo" ∧ k ≠ "industry" := by
    simp only [contactFieldKeys, List.mem_cons, List.mem_singleton] at hk
    rcases hk with rfl | rfl | rfl | rfl | rfl | rfl | rfl | rfl | rfl | rfl | rfl | rfl |
      rfl | h
    all_goals first
      | exact ⟨by decide, by decide⟩
      | cases h
  have hsp : enrich_stage r items logo_url industry k = merge_enrichment r items k :=
    splice_other hne.1 hne.2 _ _ _
  rw [hsp]
  exact ⟨merge_enrichment_keep items r k, merge_enrichment_fill items r k⟩

def c1WitnessRecord : RecordD := setR emptyRecord "email" (.str "a@b.com".data)

/-- C1, witness: a populated email survives an enrichment merge that offers
a different email. -/
theorem fill_dont_clobber_witness :
    (c1WitnessRecord "email").truthy = true ∧
    enrich_stage c1WitnessRecord
        [("email", .str "x@y.org".data), ("name", .str "Bob".data)]
        (.str "https://logo.clearbit.com/y.org".data) .none "email" =
      c1WitnessRecord "email" :=
  ⟨by decide,
    (fill_dont_clobber c1WitnessRecord
        [("email", .str "x@y.org".data), ("name", .str "Bob".data)]
        (.str "https://logo.clearbit.com/y.org".data) .none "email" (by decide)).1
      (by decide)⟩

theorem clamp01_bounds (x : ℚ) : 0 ≤ min (max x 0) 1 ∧ min (max x 0) 1 ≤ 1 :=
  ⟨le_min (le_max_right x 0) zero_le_one, min_le_right _ _⟩

theorem score_name_bounds (v : Val) :
    0 ≤ (score_name v).1 ∧ (score_name v).1 ≤ 1 := by
  unfold score_name
  simp only []
  split_ifs
  all_goals first
    | exact clamp01_bounds _
    | (constructor <;> norm_num)

theorem score_email_bounds (v : Val) :
    0 ≤ (score_email v).1 ∧ (score_email v).1 ≤ 1 := by
  unfold score_email
  simp only []
  split_ifs
  all_goals first
    | exact ⟨le_min (by norm_num) (by norm_num), min_le_right _ _⟩
    | (constructor <;> norm_num)

theorem score_phone_bounds (v : Val) :
    0 ≤ (score_phone v).1 ∧ (score_phone v).1 ≤ 1 := by
  unfold score_phone
  simp only []
  split_ifs
  all_goals first
    | exact ⟨le_min (by norm_num) (by norm_num), min_le_right _ _⟩
    | (constructor <;> norm_num)

theorem score_company_bounds (v : Val) :
    0 ≤ score_company v ∧ score_company v ≤ 1 := by
  unfold score_company
  simp only []
  split_ifs
  all_goals first
    | exact clamp01_bounds _
    | (constructor <;> norm_num)

theorem score_title_bounds (v : Val) :
    0 ≤ score_title v ∧ score_title v ≤ 1 := by
  unfold score_title
  simp only []
  split_ifs
  all_goals first
    | exact ⟨le_min (by norm_num) (by norm_num), min_le_right _ _⟩
    | (constructor <;> norm_num)

theorem score_website_bounds (v : Val) :
    0 ≤ score_website v ∧ score_website v ≤ 1 := by
  unfold score_website
  simp only []
  split_ifs <;> constructor <;> norm_num

theorem score_address_bounds (v : Val) :
    0 ≤ score_address v ∧ score_address v ≤ 1 := by
  unfold score_address
  simp only []
  split_ifs
  all_goals first
    | exact ⟨le_min (by norm_num) (by norm_num), min_le_right _ _⟩
    | (constructor <;> norm_num)

theorem score_linkedin_bounds (v : Val) :
    0 ≤ score_linkedin v ∧ score_linkedin v ≤ 1 := by
  unfold score_linkedin
  simp only []
  split_ifs <;> constructor <;> norm_num

theorem overallSums_go (pairs : List (ℚ × ℚ)) :
    ∀ a b : ℚ, (∀ x ∈ pairs, x.1 ≤ 1 ∧ 0 ≤ x.2) → 0 ≤ a → a ≤ b →
      0 ≤ (pairs.foldl
            (fun acc x => if 0 < x.1 then (acc.1 + x.1 * x.2, acc.2 + x.2) else acc)
            (a, b)).1 ∧
      (pairs.foldl
            (fun acc x => if 0 < x.1 then (acc.1 + x.1 * x.2, acc.2 + x.2) else acc)
            (a, b)).1 ≤
        (pairs.foldl
            (fun acc x => if 0 < x.1 then (acc.1 + x.1 * x.2, acc.2 + x.2) else acc)
            (a, b)).2 := by
  induction pairs with
  | nil => intro a b _ h0 hab; exact ⟨h0, hab⟩
  | cons x xs ih =>
    intro a b hx h0 hab
    have hx1 := hx x (List.mem_cons_self x xs)
    rw [List.foldl_cons]
    by_cases hp : 0 < x.1
    · rw [if_pos hp]
      refine ih (a + x.1 * x.2) (b + x.2) (fun y hy => hx y (List.mem_cons_of_mem x hy))
        (by nlinarith [hx1.2]) (by nlinarith [hx1.1, hx1.2])
    · rw [if_neg hp]
      exact ih a b (fun y hy => hx y (List.mem_cons_of_mem x hy)) h0 hab

theorem overallSums_bounds (pairs : List (ℚ × ℚ))
    (h : ∀ x ∈ pairs, x.1 ≤ 1 ∧ 0 ≤ x.2) :
    0 ≤ (overallSums pairs).1 ∧ (overallSums pairs).1 ≤ (overallSums pairs).2 :=
  overallSums_go pairs 0 0 h le_rfl le_rfl

theorem score_all_fields_overall_bounds (base : ℚ) (d : RecordD)
    (hb0 : 0 ≤ base) (hb1 : base ≤ 1) :
    0 ≤ (score_all_fields base d).overall ∧ (score_all_fields base d).overall ≤ 1 := by
  set pairs : List (ℚ × ℚ) := [
    ((score_name (d "name")).1, 25 / 100),
    ((score_email (d "email")).1, 25 / 100),
    ((score_phone (d "phone")).1, 15 / 100),
    (score_company (d "company"), 15 / 100),
    (score_title (d "title"), 10 / 100),
    (score_website (d "website"), 5 / 100),
    (score_address (d "address"), 3 / 100),
    (score_linkedin (d "linkedin"), 2 / 100)] with hpairsdef
  have hoverall : (score_all_fields base d).overall =
      if 0 < (overallSums pairs).2 then
        (overallSums pairs).1 / (overallSums pairs).2 * base
      else 0 := rfl
  have hpairs : ∀ x ∈ pairs, x.1 ≤ 1 ∧ 0 ≤ x.2 := by
    intro x hx
    rw [hpairsdef] at hx
    simp only [List.mem_cons] at hx
    rcases hx with rfl | rfl | rfl | rfl | rfl | rfl | rfl | rfl | h
    · exact ⟨(score_name_bounds _).2, by norm_num⟩
    · exact ⟨(score_email_bounds _).2, by norm_num⟩
    · exact ⟨(score_phone_bounds _).2, by norm_num⟩
    · exact ⟨(score_company_bounds _).2, by norm_num⟩
    · exact ⟨(score_title_bounds _).2, by norm_num⟩
    · exact ⟨(score_website_bounds _).2, by norm_num⟩
    · exact ⟨(score_address_bounds _).2, by norm_num⟩
    · exact ⟨(score_linkedin_bounds _).2, by norm_num⟩
    · exact absurd h (List.not_mem_nil x)
  have hs := overallSums_bounds pairs hpairs
  rw [hoverall]
  split_ifs with hpos
  · have hd0 : 0 ≤ (overallSums pairs).1 / (overallSums pairs).2 :=
      div_nonneg hs.1 (le_of_lt hpos)
    have hd1 : (overallSums pairs).1 / (overallSums pairs).2 ≤ 1 :=
      (div_le_one hpos).mpr hs.2
    exact ⟨mul_nonneg hd0 hb0, by nlinarith⟩
  · norm_num

theorem sumFold_bounds (l : List ℚ) :
    ∀ a : ℚ, (∀ q ∈ l, 0 ≤ q ∧ q ≤ 1) →
      a ≤ l.foldl (· + ·) a ∧ l.foldl (· + ·) a ≤ a + l.length := by
  induction l with
  | nil => intro a _; simp
  | cons q qs ih =>
    intro a hq
    have h1 := hq q (List.mem_cons_self q qs)
    obtain ⟨ih1, ih2⟩ := ih (a + q) fun y hy => hq y (List.mem_cons_of_mem q hy)
    rw [List.foldl_cons]
    refine ⟨by linarith, ?_⟩
    simp only [List.length_cons]
    push_cast
    linarith

theorem scoreFold_le (fs : List (Bool × ℚ)) :
    ∀ a b : ℚ, (∀ x ∈ fs, 0 ≤ x.2) → 0 ≤ a → a ≤ b →
      0 ≤ fs.foldl (fun acc f => if f.1 then acc + f.2 else acc) a ∧
      fs.foldl (fun acc f => if f.1 then acc + f.2 else acc) a ≤
        fs.foldl (fun acc f => acc + f.2) b := by
  induction fs with
  | nil => intro a b _ h0 hab; exact ⟨h0, hab⟩
  | cons f fs ih =>
    intro a b hw h0 hab
    have h1 := hw f (List.mem_cons_self f fs)
    simp only [List.foldl_cons]
    by_cases hb : f.1 = true
    · rw [if_pos hb]
      exact ih (a + f.2) (b + f.2) (fun y hy => hw y (List.mem_cons_of_mem f hy))
        (by linarith) (by linarith)
    · rw [if_neg hb]
      exact ih a (b + f.2) (fun y hy => hw y (List.mem_cons_of_mem f hy)) h0
        (by linarith)

theorem round4_bounds {q : ℚ} (h0 : 0 ≤ q) (h1 : q ≤ 1) :
    0 ≤ round4 q ∧ round4 q ≤ 1 := by
  unfold round4
  have hx0 : (0 : ℚ) ≤ q * 10000 := by positivity
  have hx1 : q * 10000 ≤ 10000 := by nlinarith
  have hf0 : (0 : ℤ) ≤ ⌊q * 10000⌋ := Int.le_floor.mpr (by exact_mod_cast hx0)
  have hfle : (⌊q * 10000⌋ : ℚ) ≤ q * 10000 := Int.floor_le _
  have hfub : ⌊q * 10000⌋ ≤ 10000 := by
    have := Int.floor_le_floor hx1
    simpa using this
  have key : ∀ n : ℤ, 0 ≤ n → n ≤ 10000 → 0 ≤ (n : ℚ) / 10000 ∧ (n : ℚ) / 10000 ≤ 1 := by
    intro n hn0 hn1
    constructor
    · positivity
    · rw [div_le_one (by norm_num)]
      exact_mod_cast hn1
  simp only []
  split_ifs with hr1 hr2 hpar
  · exact key _ hf0 hfub
  · have hlt : ⌊q * 10000⌋ < 10000 := by
      by_contra hge
      push_neg at hge
      have : (10000 : ℚ) ≤ (⌊q * 10000⌋ : ℚ) := by exact_mod_cast hge
      linarith
    exact key _ (by omega) (by omega)
  · have heq : q * 10000 - ⌊q * 10000⌋ = 1 / 2 := by linarith
    have hlt : ⌊q * 10000⌋ < 10000 := by
      by_contra hge
      push_neg at hge
      have : (10000 : ℚ) ≤ (⌊q * 10000⌋ : ℚ) := by exact_mod_cast hge
      linarith
    exact key _ hf0 (by omega)
  · have heq : q * 10000 - ⌊q * 10000⌋ = 1 / 2 := by linarith
    have hlt : ⌊q * 10000⌋ < 10000 := by
      by_contra hge
      push_neg at hge
      have : (10000 : ℚ) ≤ (⌊q * 10000⌋ : ℚ) := by exact_mod_cast hge
      linarith
    exact key _ (by omega) (by omega)

theorem calculate_confidence_bounds (c : ContactData) (ocr : List ℚ)
    (hocr : ∀ q ∈ ocr, 0 ≤ q ∧ q ≤ 1) :
    0 ≤ calculate_confidence c ocr ∧ calculate_confidence c ocr ≤ 1 := by
  unfold calculate_confidence
  simp only []
  set fields : List (Bool × ℚ) := [
    (truthyStrippedStr c.name, 25 / 100),
    (truthyStrippedStr c.email, 25 / 100),
    (!c.phone.isEmpty, 15 / 100),
    (truthyStrippedStr c.company, 15 / 100),
    (truthyStrippedStr c.title, 10 / 100),
    (truthyStrippedStr c.website, 5 / 100),
    (truthyStrippedStr c.address, 5 / 100)] with hfields
  have hw : ∀ x ∈ fields, 0 ≤ x.2 := by
    intro x hx
    rw [hfields] at hx
    simp only [List.mem_cons] at hx
    rcases hx with rfl | rfl | rfl | rfl | rfl | rfl | rfl | h
    · norm_num
    · norm_num
    · norm_num
    · norm_num
    · norm_num
    · norm_num
    · norm_num
    · cases h
  have hmax : fields.foldl (fun a f => a + f.2) 0 = 1 := by
    rw [hfields]
    simp only [List.foldl_cons, List.foldl_nil]
    norm_num
  obtain ⟨hs0, hs1⟩ := scoreFold_le fields 0 0 hw le_rfl le_rfl
  rw [hmax] at hs1
  have hmean : (!ocr.isEmpty) = true →
      0 ≤ ocr.foldl (· + ·) 0 / (ocr.length : ℚ) ∧
      ocr.foldl (· + ·) 0 / (ocr.length : ℚ) ≤ 1 := by
    intro hne
    have hlen : 0 < (ocr.length : ℚ) := by
      cases ocr with
      | nil => simp at hne
      | cons a as => exact_mod_cast Nat.succ_pos as.length
    have hsum := sumFold_bounds ocr 0 hocr
    constructor
    · exact div_nonneg (by simpa using hsum.1) (le_of_lt hlen)
    · rw [div_le_one hlen]
      simpa using hsum.2
  apply round4_bounds
  case h0 =>
    split_ifs with hne hpos
    · rw [hmax]
      obtain ⟨hm0, hm1⟩ := hmean hne
      have h01 : (0 : ℚ) ≤ fields.foldl (fun a f => if f.1 = true then a + f.2 else a) 0 := hs0
      nlinarith
    · exact div_nonneg hs0 (le_of_lt hpos)
    · exact le_rfl
  case h1 =>
    split_ifs with hne hpos
    · rw [hmax]
      obtain ⟨hm0, hm1⟩ := hmean hne
      nlinarith
    · rw [div_le_one hpos, hmax]
      exact hs1
    · norm_num

/-- C7: every per-field confidence and the overall confidence produced by
`FieldConfidenceScorer.score_all_fields` lie in `[0, 1]` whenever the
upstream OCR confidence does, and so does the parser's
`_calculate_confidence` when the supplied OCR result confidences do. -/
theorem confidence_bounds (base : ℚ) (d : RecordD) (c : ContactData) (ocr : List ℚ)
    (hb0 : 0 ≤ base) (hb1 : base ≤ 1) (hocr : ∀ q ∈ ocr, 0 ≤ q ∧ q ≤ 1) :
    (0 ≤ (score_all_fields base d).name ∧ (score_all_fields base d).name ≤ 1) ∧
    (0 ≤ (score_all_fields base d).email ∧ (score_all_fields base d).email ≤ 1) ∧
    (0 ≤ (score_all_fields base d).phone ∧ (score_all_fields base d).phone ≤ 1) ∧
    (0 ≤ (score_all_fields base d).company ∧ (score_all_fields base d).company ≤ 1) ∧
    (0 ≤ (score_all_fields base d).title ∧ (score_all_fields base d).title ≤ 1) ∧
    (0 ≤ (score_all_fields base d).website ∧ (score_all_fields base d).website ≤ 1) ∧
    (0 ≤ (score_all_fields base d).address ∧ (score_all_fields base d).address ≤ 1) ∧
    (0 ≤ (score_all_fields base d).linkedin ∧ (score_all_fields base d).linkedin ≤ 1) ∧
    (0 ≤ (score_all_fields base d).overall ∧ (score_all_fields base d).overall ≤ 1) ∧
    (0 ≤ calculate_confidence c ocr ∧ calculate_confidence c ocr ≤ 1) :=
  ⟨score_name_bounds _, score_email_bounds _, score_phone_bounds _,
   score_company_bounds _, score_title_bounds _, score_website_bounds _,
   score_address_bounds _, score_linkedin_bounds _,
   score_all_fields_overall_bounds base d hb0 hb1,
   calculate_confidence_bounds c ocr hocr⟩

/-- C7, witness at OCR confidence 1/2, an empty contact dict, the default
`ContactData`, and one upstream confidence 1/2. -/
theorem confidence_bounds_witness :
    (0 ≤ (score_all_fields (1 / 2) emptyRecord).overall ∧
      (score_all_fields (1 / 2) emptyRecord).overall ≤ 1) ∧
    (0 ≤ calculate_confidence {} [1 / 2] ∧ calculate_confidence {} [1 / 2] ≤ 1) := by
  have h := confidence_bounds (1 / 2) emptyRecord {} [1 / 2] (by norm_num) (by norm_num)
    (by intro q hq; simp only [List.mem_singleton] at hq; rw [hq]; norm_num)
  exact ⟨h.2.2.2.2.2.2.2.2.1, h.2.2.2.2.2.2.2.2.2⟩

theorem websitePrimary_sound (ed : Option (List Char)) :
    ∀ (ms : List (List Char)) (m url : List Char),
      websitePrimary ed ms = some (m, url) →
      (∀ s ∈ socialStrs, containsSub m s.data = false) ∧
      (∀ dmn, ed = some dmn → dmn ≠ [] → containsSub m dmn = false) ∧
      url = cleanUrl m := by
  intro ms
  induction ms with
  | nil => intro m url h; cases h
  | cons m0 ms ih =>
    intro m url h
    unfold websitePrimary at h
    split_ifs at h with h1 h2
    · exact ih m url h
    · exact ih m url h
    · obtain ⟨he1, he2⟩ := Prod.mk.injEq .. ▸ (Option.some.injEq .. ▸ h)
      subst he1
      subst he2
      refine ⟨?_, ?_, rfl⟩
      · intro s hs
        by_contra hcon
        rw [Bool.not_eq_false] at hcon
        exact h2 (List.any_eq_true.mpr ⟨s, hs, hcon⟩)
      · intro dmn hed hne
        rw [hed] at h1
        simp only [Bool.and_eq_true, Bool.not_eq_true'] at h1
        by_contra hcon
        rw [Bool.not_eq_false] at hcon
        apply h1
        refine ⟨?_, hcon⟩
        cases dmn with
        | nil => exact absurd rfl hne
        | cons c cs => rfl

/-- C9, counterexample: for the input `"linkedin..com"` the raw website
match `"linkedin..com"` passes the social-media check (the check runs
before dot-collapsing), and the returned website is the LinkedIn URL the
claim forbids. -/
theorem website_social_cex :
    extract_website "linkedin..com".data = some "https://linkedin.com".data ∧
    containsSub "https://linkedin.com".data "linkedin.com".data = true := by
  refine ⟨by decide, by decide⟩

/-- C9, amended: only the primary pass of `_extract_website` applies the
exclusions, and it applies them to the raw regex match before cleaning: a
primary-pass result never comes from a match containing a social-media
domain or the email's domain as a substring, and the returned URL is the
cleaned match.  The returned URL itself can still be such a domain (the
counterexample), and the fallback patterns apply no exclusion at all. -/
theorem website_exclusions_amended (text m url : List Char)
    (h : websitePrimary (website_email_domain text)
          (findAll websiteRE (website_cleaned text)) = some (m, url)) :
    extract_website text = some url ∧
    (∀ s ∈ socialStrs, containsSub m s.data = false) ∧
    (∀ dmn, website_email_domain text = some dmn → dmn ≠ [] →
      containsSub m dmn = false) ∧
    url = cleanUrl m := by
  obtain ⟨hs, hd, hu⟩ := websitePrimary_sound _ _ m url h
  refine ⟨?_, hs, hd, hu⟩
  unfold extract_website
  simp only []
  rw [h]

/-- C9 amended, witness: on `"www.foo.com"` (no email, no social domain)
the primary pass fires and the exclusions hold. -/
theorem website_exclusions_amended_witness :
    websitePrimary (website_email_domain "www.foo.com".data)
        (findAll websiteRE (website_cleaned "www.foo.com".data)) =
      some ("www.foo.com".data, "https://www.foo.com".data) ∧
    extract_website "www.foo.com".data = some "https://www.foo.com".data ∧
    containsSub "www.foo.com".data "linkedin.com".data = false :=
  ⟨by decide,
   (website_exclusions_amended "www.foo.com".data "www.foo.com".data
      "https://www.foo.com".data (by decide)).1,
   by decide⟩

/-! #### Inversion lemmas for the matcher -/

theorem mem_reMatches_cls {p : Char → Bool} {prev : Option Char} {l c rest : List Char}
    (h : (c, rest) ∈ reMatches (.cls p) prev l) :
    ∃ x xs, l = x :: xs ∧ p x = true ∧ c = [x] ∧ rest = xs := by
  match l with
  | [] => simp [reMatches] at h
  | x :: xs =>
    simp only [reMatches] at h
    by_cases hp : p x
    · simp [hp] at h
      exact ⟨x, xs, rfl, hp, h.1, h.2⟩
    · simp [hp] at h

theorem mem_reMatches_eps {prev : Option Char} {l c rest : List Char}
    (h : (c, rest) ∈ reMatches .eps prev l) : c = [] ∧ rest = l := by
  simpa [reMatches] using h

theorem mem_reMatches_cat {a b : RE} {prev : Option Char} {l c rest : List Char}
    (h : (c, rest) ∈ reMatches (.cat a b) prev l) :
    ∃ c1 r1 c2, (c1, r1) ∈ reMatches a prev l ∧
      (c2, rest) ∈ reMatches b (lastChar prev c1) r1 ∧ c = c1 ++ c2 := by
  simp only [reMatches, List.mem_bind, List.mem_map] at h
  obtain ⟨⟨c1, r1⟩, h1, ⟨c2, r2⟩, h2, heq⟩ := h
  cases heq
  exact ⟨c1, r1, c2, h1, h2, rfl⟩

theorem mem_reMatches_alt {a b : RE} {prev : Option Char} {l c rest : List Char}
    (h : (c, rest) ∈ reMatches (.alt a b) prev l) :
    (c, rest) ∈ reMatches a prev l ∨ (c, rest) ∈ reMatches b prev l := by
  simpa only [reMatches, List.mem_append] using h

theorem mem_reMatches_opt {r : RE} {prev : Option Char} {l c rest : List Char}
    (h : (c, rest) ∈ reMatches (reOpt r) prev l) :
    (c, rest) ∈ reMatches r prev l ∨ c = [] := by
  rcases mem_reMatches_alt h with h | h
  · exact Or.inl h
  · exact Or.inr (mem_reMatches_eps h).1

/-! #### `reChars` for the derived constructors -/

theorem reChars_opt {S : Char → Prop} {r : RE} (h : reChars S r) : reChars S (reOpt r) :=
  ⟨h, trivial⟩

theorem reChars_repOpt {S : Char → Prop} {p : Char → Bool} (h : ∀ c, p c = true → S c) :
    ∀ n, reChars S (repOpt p n) := by
  intro n
  induction n with
  | zero => exact trivial
  | succ k ih => exact ⟨⟨h, ih⟩, trivial⟩

theorem reChars_repExact {S : Char → Prop} {p : Char → Bool} (h : ∀ c, p c = true → S c) :
    ∀ n, reChars S (repExact p n) := by
  intro n
  induction n with
  | zero => exact trivial
  | succ k ih => exact ⟨h, ih⟩

theorem reChars_repRange {S : Char → Prop} {p : Char → Bool} (h : ∀ c, p c = true → S c)
    (m n : Nat) : reChars S (repRange p m n) := by
  unfold repRange
  exact ⟨reChars_repExact h m, reChars_repOpt h (n - m)⟩

theorem reChars_lit1 {S : Char → Prop} {a : Char} (h : S a) : reChars S (lit1 a) := by
  intro c hc
  have hca : c = a := of_decide_eq_true hc
  exact hca ▸ h

/-! #### The phone pattern puts `+` at most in leading position -/

theorem isDigitC_no_plus : ∀ c, isDigitC c = true → c ≠ '+' := by
  intro c h heq
  rw [heq] at h
  exact absurd h (by decide)

theorem clsPhoneSep_no_plus : ∀ c, clsPhoneSep c = true → c ≠ '+' := by
  intro c h heq
  rw [heq] at h
  exact absurd h (by decide)

theorem clsPhoneBody_no_plus : ∀ c, clsPhoneBody c = true → c ≠ '+' := by
  intro c h heq
  rw [heq] at h
  exact absurd h (by decide)

theorem phoneRE_tail_chars :
    reChars (fun ch => ch ≠ '+')
      (.cat (reOpt (.cat (reOpt (lit1 '(')) (.cat (repRange isDigitC 2 4)
          (.cat (reOpt (lit1 ')')) (repOpt clsPhoneSep 1)))))
        (.cat (repRange clsPhoneBody 6 14) (.cls isDigitC))) :=
  ⟨reChars_opt ⟨reChars_opt (reChars_lit1 (by decide)),
      reChars_repRange isDigitC_no_plus 2 4,
      reChars_opt (reChars_lit1 (by decide)),
      reChars_repOpt clsPhoneSep_no_plus 1⟩,
    reChars_repRange clsPhoneBody_no_plus 6 14, isDigitC_no_plus⟩

/-- Any match of the phone pattern has `+` at most as its first character:
every sub-pattern other than the optional leading `\+?` draws from character
classes that exclude `+`. -/
theorem phone_match_plus {prev : Option Char} {l c rest : List Char}
    (h : (c, rest) ∈ reMatches phoneRE prev l) :
    ∀ ch ∈ c.drop 1, ch ≠ '+' := by
  obtain ⟨c1, r1, c2, h1, h2, hc⟩ := mem_reMatches_cat h
  have hc2 : ∀ ch ∈ c2, ch ≠ '+' :=
    reMatches_chars _ phoneRE_tail_chars _ _ _ _ h2
  rcases mem_reMatches_opt h1 with h1m | h1e
  · obtain ⟨p1, rr1, q1, hp, hq, hc1⟩ := mem_reMatches_cat h1m
    have hcs : reChars (fun ch => ch ≠ '+')
        (.cat (repRange isDigitC 1 3) (repOpt clsPhoneSep 1)) :=
      ⟨reChars_repRange isDigitC_no_plus 1 3, reChars_repOpt clsPhoneSep_no_plus 1⟩
    have hq1 : ∀ ch ∈ q1, ch ≠ '+' := reMatches_chars _ hcs _ _ _ _ hq
    rcases mem_reMatches_opt hp with hpm | hpe
    · obtain ⟨x, xs, _, _, hcp, _⟩ := mem_reMatches_cls hpm
      subst hc; subst hc1; subst hcp
      intro ch hch
      simp only [List.cons_append, List.nil_append, List.drop_succ_cons,
        List.drop_zero] at hch
      rcases List.mem_append.mp hch with hm | hm
      · exact hq1 ch hm
      · exact hc2 ch hm
    · subst hc; subst hc1; subst hpe
      intro ch hch
      have hch2 := List.mem_of_mem_drop hch
      simp only [List.nil_append] at hch2
      rcases List.mem_append.mp hch2 with hm | hm
      · exact hq1 ch hm
      · exact hc2 ch hm
  · subst hc; subst h1e
    intro ch hch
    have hch2 := List.mem_of_mem_drop hch
    simp only [List.nil_append] at hch2
    exact hc2 ch hch2

/-! #### Every `findAll` element is a match of the pattern -/

theorem searchFrom_matches {r : RE} :
    ∀ (fuel : Nat) (prev : Option Char) (l s m rest : List Char),
      searchFrom r fuel prev l = some (s, m, rest) →
      ∃ prev2 l2, (m, rest) ∈ reMatches r prev2 l2 := by
  intro fuel
  induction fuel with
  | zero =>
    intro prev l s m rest h
    simp [searchFrom] at h
  | succ k ih =>
    intro prev l s m rest h
    simp only [searchFrom] at h
    cases hfm : firstMatch r prev l with
    | some x =>
      obtain ⟨xm, xr⟩ := x
      rw [hfm] at h
      simp only [Option.some.injEq, Prod.mk.injEq] at h
      obtain ⟨hs, hm, hr⟩ := h
      subst hm; subst hr
      refine ⟨prev, l, ?_⟩
      unfold firstMatch at hfm
      cases hl : reMatches r prev l with
      | nil => rw [hl] at hfm; simp at hfm
      | cons a as =>
        rw [hl] at hfm
        simp only [List.head?_cons, Option.some.injEq] at hfm
        rw [← hfm]
        exact List.mem_cons_self a as
    | none =>
      rw [hfm] at h
      cases l with
      | nil => simp at h
      | cons x xs =>
        simp only [Option.map_eq_some', Prod.mk.injEq] at h
        obtain ⟨⟨y1, y2, y3⟩, hy, hs1, hm1, hr1⟩ := h
        subst hm1; subst hr1
        exact ih (some x) xs y1 _ _ hy

theorem findAllFrom_matches {r : RE} :
    ∀ (fuel : Nat) (prev : Option Char) (l m : List Char),
      m ∈ findAllFrom r fuel prev l →
      ∃ prev2 l2 rest, (m, rest) ∈ reMatches r prev2 l2 := by
  intro fuel
  induction fuel with
  | zero =>
    intro prev l m h
    simp [findAllFrom] at h
  | succ k ih =>
    intro prev l m h
    simp only [findAllFrom] at h
    cases hs : searchFrom r (l.length + 1) prev l with
    | none => rw [hs] at h; simp at h
    | some x =>
      obtain ⟨s, mm, rest⟩ := x
      rw [hs] at h
      simp only [] at h
      by_cases hemp : mm.isEmpty = true
      · rw [if_pos hemp] at h
        cases rest with
        | nil => simp at h
        | cons c cs => exact ih (some c) cs m h
      · rw [if_neg hemp] at h
        rcases List.mem_cons.mp h with h | h
        · subst h
          obtain ⟨p2, l2, hmem⟩ := searchFrom_matches (l.length + 1) prev l s m rest hs
          exact ⟨p2, l2, rest, hmem⟩
        · exact ih _ _ m h

theorem mem_findAll_matches {r : RE} {l m : List Char} (h : m ∈ findAll r l) :
    ∃ prev2 l2 rest, (m, rest) ∈ reMatches r prev2 l2 :=
  findAllFrom_matches _ _ _ _ h

/-! #### `_normalize_phone` facts -/

theorem normalize_phone_eq {m p : List Char} (h : normalize_phone m = some p) :
    p = m.filter (fun c => isDigitC c || c = '+') ∧ 10 ≤ countDigits p := by
  unfold normalize_phone at h
  simp only [] at h
  by_cases hlt :
      ((m.filter fun c => isDigitC c || c = '+').filter isDigitC).length < 10
  · rw [if_pos hlt] at h
    exact absurd h (by simp)
  · rw [if_neg hlt] at h
    have hp : m.filter (fun c => isDigitC c || c = '+') = p := Option.some.inj h
    refine ⟨hp.symm, ?_⟩
    rw [← hp]
    unfold countDigits
    omega

theorem filter_drop_one_no_plus (f : Char → Bool) (m : List Char)
    (hm : ∀ ch ∈ m.drop 1, ch ≠ '+') :
    ∀ ch ∈ (m.filter f).drop 1, ch ≠ '+' := by
  cases m with
  | nil => intro ch hch; simp at hch
  | cons x xs =>
    have hm2 : ∀ ch ∈ xs, ch ≠ '+' := fun ch hch => hm ch hch
    intro ch hch
    rw [List.filter_cons] at hch
    by_cases hfx : f x = true
    · rw [if_pos hfx] at hch
      have hxf : ch ∈ xs.filter f := hch
      exact hm2 ch (List.mem_of_mem_filter hxf)
    · rw [if_neg hfx] at hch
      exact hm2 ch (List.mem_of_mem_filter (List.mem_of_mem_drop hch))

theorem normalize_phone_good {m p : List Char} (hm : ∀ ch ∈ m.drop 1, ch ≠ '+')
    (h : normalize_phone m = some p) :
    (∀ ch ∈ p, isDigitC ch = true ∨ ch = '+') ∧
      (∀ ch ∈ p.drop 1, ch ≠ '+') ∧ 10 ≤ countDigits p := by
  obtain ⟨hp, hcnt⟩ := normalize_phone_eq h
  refine ⟨?_, ?_, hcnt⟩
  · intro ch hch
    rw [hp] at hch
    have hf := List.of_mem_filter hch
    simpa using hf
  · subst hp
    exact filter_drop_one_no_plus _ m hm

theorem filter_digits_good (g : List Char) (hlen : 10 ≤ (g.filter isDigitC).length) :
    (∀ ch ∈ g.filter isDigitC, isDigitC ch = true ∨ ch = '+') ∧
      (∀ ch ∈ (g.filter isDigitC).drop 1, ch ≠ '+') ∧
      10 ≤ countDigits (g.filter isDigitC) := by
  have hall : ∀ ch ∈ g.filter isDigitC, isDigitC ch = true :=
    fun ch hch => List.of_mem_filter hch
  refine ⟨fun ch hch => Or.inl (hall ch hch), ?_, ?_⟩
  · intro ch hch heq
    have hd := hall ch (List.mem_of_mem_drop hch)
    rw [heq] at hd
    exact absurd hd (by decide)
  · unfold countDigits
    rw [List.filter_eq_self.mpr hall]
    exact hlen

/-! #### The deduplicating accumulation of `_extract_phones` -/

theorem dedup_snoc_inv {Q : List Char → Prop} {acc : List (List Char)} {p : List Char}
    (hka : ∀ q ∈ acc, Q q) (hna : acc.Nodup) (hp : Q p) :
    (∀ q ∈ (if acc.contains p then acc else acc ++ [p]), Q q) ∧
      (if acc.contains p then acc else acc ++ [p]).Nodup := by
  by_cases hc : acc.contains p = true
  · rw [if_pos hc]
    exact ⟨hka, hna⟩
  · rw [if_neg hc]
    have hnp : p ∉ acc := fun hmem => hc (List.elem_iff.mpr hmem)
    constructor
    · intro q hq
      rcases List.mem_append.mp hq with hq | hq
      · exact hka q hq
      · rw [List.mem_singleton] at hq
        exact hq ▸ hp
    · rw [List.nodup_append]
      refine ⟨hna, List.nodup_singleton p, ?_⟩
      intro a ha hb
      rw [List.mem_singleton] at hb
      exact hnp (hb ▸ ha)

theorem pass1_fold_inv :
    ∀ (ms acc : List (List Char)),
      (∀ x ∈ ms, ∀ ch ∈ x.drop 1, ch ≠ '+') →
      (∀ q ∈ acc, (∀ ch ∈ q, isDigitC ch = true ∨ ch = '+') ∧
          (∀ ch ∈ q.drop 1, ch ≠ '+') ∧ 10 ≤ countDigits q) →
      acc.Nodup →
      (∀ q ∈ ms.foldl phonePass1Step acc,
          (∀ ch ∈ q, isDigitC ch = true ∨ ch = '+') ∧
          (∀ ch ∈ q.drop 1, ch ≠ '+') ∧ 10 ≤ countDigits q) ∧
        (ms.foldl phonePass1Step acc).Nodup := by
  intro ms
  induction ms with
  | nil =>
    intro acc _ hka hna
    exact ⟨hka, hna⟩
  | cons x xs ih =>
    intro acc hms hka hna
    have hx : ∀ ch ∈ x.drop 1, ch ≠ '+' := hms x (List.mem_cons_self x xs)
    have hxs : ∀ y ∈ xs, ∀ ch ∈ y.drop 1, ch ≠ '+' :=
      fun y hy => hms y (List.mem_cons_of_mem x hy)
    rw [List.foldl_cons]
    cases hn : normalize_phone x with
    | none =>
      have heq : phonePass1Step acc x = acc := by
        unfold phonePass1Step
        rw [hn]
      rw [heq]
      exact ih acc hxs hka hna
    | some p =>
      have hgood := normalize_phone_good hx hn
      have hres := dedup_snoc_inv hka hna hgood
      have heq : phonePass1Step acc x =
          if acc.contains p then acc else acc ++ [p] := by
        unfold phonePass1Step
        rw [hn]
      rw [heq]
      exact ih _ hxs hres.1 hres.2

theorem pass2_fold_inv :
    ∀ (gs : List (List Char)) (acc : List (List Char)),
      (∀ q ∈ acc, (∀ ch ∈ q, isDigitC ch = true ∨ ch = '+') ∧
          (∀ ch ∈ q.drop 1, ch ≠ '+') ∧ 10 ≤ countDigits q) →
      acc.Nodup →
      (∀ q ∈ gs.foldl phonePass2Step acc,
          (∀ ch ∈ q, isDigitC ch = true ∨ ch = '+') ∧
          (∀ ch ∈ q.drop 1, ch ≠ '+') ∧ 10 ≤ countDigits q) ∧
        (gs.foldl phonePass2Step acc).Nodup := by
  intro gs
  induction gs with
  | nil =>
    intro acc hka hna
    exact ⟨hka, hna⟩
  | cons g gs ih =>
    intro acc hka hna
    rw [List.foldl_cons]
    by_cases hg : 10 ≤ (g.filter isDigitC).length ∧ (g.filter isDigitC).length ≤ 14
    · have heq : phonePass2Step acc g =
          if acc.contains (g.filter isDigitC) then acc
          else acc ++ [g.filter isDigitC] := by
        unfold phonePass2Step
        simp only []
        rw [if_pos hg]
      have hres := dedup_snoc_inv hka hna (filter_digits_good g hg.1)
      rw [heq]
      exact ih _ hres.1 hres.2
    · have heq : phonePass2Step acc g = acc := by
        unfold phonePass2Step
        simp only []
        rw [if_neg hg]
      rw [heq]
      exact ih acc hka hna

theorem extract_phones_core (cl : List Char) :
    (∀ q ∈ (runsOf clsDigitGroup (cl.length + 1) cl).foldl phonePass2Step
        ((findAll phoneRE cl).foldl phonePass1Step []),
        (∀ ch ∈ q, isDigitC ch = true ∨ ch = '+') ∧
        (∀ ch ∈ q.drop 1, ch ≠ '+') ∧ 10 ≤ countDigits q) ∧
      ((runsOf clsDigitGroup (cl.length + 1) cl).foldl phonePass2Step
        ((findAll phoneRE cl).foldl phonePass1Step [])).Nodup := by
  have hms : ∀ x ∈ findAll phoneRE cl, ∀ ch ∈ x.drop 1, ch ≠ '+' := by
    intro x hx
    obtain ⟨p2, l2, rest, hmem⟩ := mem_findAll_matches hx
    exact phone_match_plus hmem
  have base := pass1_fold_inv (findAll phoneRE cl) [] hms
    (by intro q hq; simp at hq) List.nodup_nil
  exact pass2_fold_inv _ _ base.1 base.2

/-- C5, counterexample: on the input `"1234567890123456"` the extractor
returns that very 16-digit string, so the claimed upper bound of 15 digits
is violated: `_normalize_phone` only enforces the lower bound. -/
theorem phone_over_15_digits_cex :
    extract_phones ("1234567890123456".data) = ["1234567890123456".data] ∧
    countDigits ("1234567890123456".data) = 16 := by
  constructor
  · decide
  · decide

/-- C5, amended: every phone returned by `_extract_phones` consists of digit
characters with `+` allowed only as the first character, has at least 10
digits, and the returned list is duplicate-free; there is no upper bound on
the digit count (the digit-group pass caps its candidates at 14 digits, but
the primary-pattern pass accepts arbitrarily many). -/
theorem phone_contract_amended (text : List Char) :
    (∀ p ∈ extract_phones text,
        (∀ ch ∈ p, isDigitC ch = true ∨ ch = '+') ∧
        (∀ ch ∈ p.drop 1, ch ≠ '+') ∧
        10 ≤ countDigits p) ∧
      (extract_phones text).Nodup := by
  unfold extract_phones
  simp only []
  exact extract_phones_core _

end Card
